import Mathlib

/-!
# Allora worker: the price pipelines of `main.go`

A shallow embedding of the request handlers `handleCryptoRequest` and
`handleMemeRequest` of `main.go` and of the functions they call.

Conventions of the embedding.

* In the handlers and in the functions that reach the network, `float64` is
  modelled by exact rational arithmetic (`ℚ`): the operators `+ - * /` and
  the comparisons are those of the rationals.
* The two numerical functions `multiplyChangeRate` and `random` are written
  once, over any type that carries the operators they use.  Their numerical
  properties are stated and proved over `Binary64`, an executable model of
  IEEE 754 binary64: signed zeros, subnormals, the infinities and NaN, every
  operation rounded to nearest with ties to even and overflow to an
  infinity, decimal constants converted to the nearest value.  Each operation
  is rounded on its own; the fusion of a multiplication with an addition,
  which the Go specification permits to a compiler, is not modelled.
* A Go result pair `(T, error)` is a Lean pair `T × Option GoError`; a Go
  pointer result `*T` is an `Option T` (`none` is `nil`).
* A run-time panic (index out of range, failed type assertion, nil
  dereference) is an explicit outcome `Run.panicked`.
* Everything the program obtains from outside (the HTTP servers, the clock,
  the random sources) and the library routines it calls (`strconv`,
  `encoding/json`) are the fields of a `World`.  Every outbound HTTP request
  is recorded, in order, in `Exec.calls`.
* Writes to standard output (`fmt.Println`, `fmt.Printf`) are not modelled.
-/

namespace AlloraWorker

/-- Go `float64`, modelled by exact rationals. -/
abbrev float64 := ℚ

/-- Go `error` value; only the message is kept. -/
structure GoError where
  msg : String
deriving DecidableEq, Repr

/-- Go `time.Time`: the zero value, or an instant given in Unix milliseconds. -/
inductive GoTime where
  | zero
  | unixMilli (ms : Int)
deriving DecidableEq, Repr

/-- Value held by an `interface{}` after `encoding/json` decoding. -/
inductive JVal where
  | null
  | bool (b : Bool)
  | num (f : float64)
  | str (s : String)
  | arr (xs : List JVal)
  | obj (kvs : List (String × JVal))

/-- The struct `Kline` of `main.go`. -/
structure Kline where
  OpenTime : GoTime
  CloseTime : GoTime
  Interval : String
  Symbol : String
  Open : String
  High : String
  Low : String
  Close : String
  Volume : String
  Closed : Bool
deriving DecidableEq, Repr

/-- The struct `envConfig` of `main.go`. -/
structure envConfig where
  APIKey : String
  RPC : String
  CoinGeckoAPIKey : String
  CryptoCompareAPIKey : String
deriving DecidableEq, Repr

/-- The `data` member of the struct `memeOracleResponse`. -/
structure memeOracleData where
  TokenID : String
  TokenSymbol : String
  Platform : String
  Address : String
deriving DecidableEq, Repr

/-- The struct `memeOracleResponse` of `main.go`. -/
structure memeOracleResponse where
  RequestID : String
  Status : Bool
  Data : memeOracleData
deriving DecidableEq, Repr

/-- An outbound HTTP GET request, identified by its endpoint and the values
formatted into its URL and headers. -/
inductive Upstream where
  | klines (endTime : Int) (limit symbol interval : String)
  | coinGecko (token apiKey : String)
  | cryptoCompare (token apiKey : String)
  | geckoTerminal (network memeAddress : String)
  | nodeStatus (rpc : String)
  | tokensOracle (blockHeight apiKey : String)
deriving DecidableEq, Repr

/-- Body of an HTTP response: the bytes, and the error met when reading them. -/
structure Body where
  bytes : String
  readErr : Option GoError
deriving DecidableEq, Repr

/-- The part of `http.Response` the program reads. -/
structure HttpResponse where
  StatusCode : Int
  Body : Body
deriving DecidableEq, Repr

/-- Everything outside the program: the upstream servers, the clock, the
random sources, and the library routines of `strconv` and `encoding/json`. -/
structure World where
  /-- Result of `time.Now().UnixMilli()` in `getLastKlines`. -/
  nowUnixMilli : Int
  /-- Result of `r.Float64()` on the freshly seeded source of `multiplyChangeRate`. -/
  multiplierDraw : float64
  /-- Result of the package level `rand.Float64()` in `random`. -/
  randomDraw : float64
  /-- Library `http.NewRequest`: the error for the request, if any. -/
  NewRequest : Upstream → Option GoError
  /-- Library `http.Get` and `client.Do`: the response or the transport error. -/
  Get : Upstream → Except GoError HttpResponse
  /-- Library `strconv.ParseFloat(s, 64)`: value and error. -/
  ParseFloat : String → float64 × Option GoError
  /-- Library `strconv.FormatFloat(f, 'g', -1, 64)`. -/
  FormatFloat : float64 → String
  /-- Library `json.Unmarshal` into `[][]interface{}`. -/
  UnmarshalRows : String → Except GoError (List (List JVal))
  /-- Library `json.Decoder.Decode` into `map[string]map[string]float64`. -/
  DecodeNestedPrices : Body → Except GoError (String → Option (String → Option float64))
  /-- Library `json.Decoder.Decode` into `map[string]float64`. -/
  DecodePrices : Body → Except GoError (String → Option float64)
  /-- Library `json.Unmarshal` into `tokenPriceResponse`; the result is the
  map `Data.Attributes.TokenPrices`. -/
  UnmarshalTokenPrices : String → Except GoError (String → Option String)
  /-- Library `json.Unmarshal` into `latestBlockResponse`; the result is the
  member `Result.SyncInfo.LatestBlockHeight`. -/
  UnmarshalLatestBlock : String → Except GoError String
  /-- Library `json.Unmarshal` into `memeOracleResponse`. -/
  UnmarshalMemeOracle : String → Except GoError memeOracleResponse

/-- A run-time panic of the Go program. -/
inductive GoPanic where
  | indexOutOfRange (index length : Nat)
  | typeAssertion
  | nilDereference
deriving DecidableEq, Repr

/-- How a piece of Go code ends: with a value, or with a panic. -/
inductive Run (α : Type) where
  | done (a : α)
  | panicked (p : GoPanic)
deriving DecidableEq, Repr

/-- A piece of Go code run against a world: the outbound requests it issued,
in order, and how it ended. -/
structure Exec (α : Type) where
  calls : List Upstream
  result : Run α

/-- Ending with a value, without any outbound request. -/
def Exec.ret {α : Type} (a : α) : Exec α :=
  ⟨[], Run.done a⟩

/-- Ending with a panic, without any outbound request. -/
def Exec.panic {α : Type} (p : GoPanic) : Exec α :=
  ⟨[], Run.panicked p⟩

/-- Sequencing: the second part runs only if the first did not panic. -/
def Exec.andThen {α β : Type} (x : Exec α) (f : α → Exec β) : Exec β :=
  match x.result with
  | Run.done a => ⟨x.calls ++ (f a).calls, (f a).result⟩
  | Run.panicked p => ⟨x.calls, Run.panicked p⟩

/-- Issue one outbound request and record it. -/
def Exec.send (w : World) (u : Upstream) : Exec (Except GoError HttpResponse) :=
  ⟨[u], Run.done (w.Get u)⟩

/-- Library `io.ReadAll` on a response body. -/
def ReadAll (b : Body) : String × Option GoError :=
  (b.bytes, b.readErr)

/-- Library `fmt.Errorf` with the verb `%w`: the message followed by the
wrapped error. -/
def wrapError (msg : String) (err : GoError) : GoError :=
  ⟨msg ++ err.msg⟩

/-- Lookup in a Go map: the zero value when the key is absent. -/
def mapIndex {α : Type} (zero : α) (m : String → Option α) (key : String) : α :=
  (m key).getD zero

/-- Index expression `xs[i]` on a slice: panics when out of range. -/
def sliceIndex (xs : List JVal) (i : Nat) : Exec JVal :=
  match xs.get? i with
  | some v => Exec.ret v
  | none => Exec.panic (GoPanic.indexOutOfRange i xs.length)

/-- Type assertion `v.(float64)`: panics on any other dynamic type. -/
def assertFloat64 : JVal → Exec float64
  | JVal.num f => Exec.ret f
  | _ => Exec.panic GoPanic.typeAssertion

/-- Type assertion `v.(string)`: panics on any other dynamic type. -/
def assertString : JVal → Exec String
  | JVal.str s => Exec.ret s
  | _ => Exec.panic GoPanic.typeAssertion

/-- Conversion `int64(f)` of a float: the fraction is discarded (values that
do not fit 64 bits are implementation dependent in Go and are not relied on). -/
def toInt64 (f : float64) : Int :=
  if 0 ≤ f then ⌊f⌋ else ⌈f⌉

/-- Response written by a handler through `c.String` or `c.JSON`. -/
inductive Response where
  | string (code : Nat) (body : String)
  | json (code : Nat) (price binance_price coingecko_price cryptocompare_price : float64)
deriving DecidableEq, Repr

/-- Status code of a response. -/
def Response.code : Response → Nat
  | Response.string code _ => code
  | Response.json code _ _ _ _ => code

/-- The function `getLastKlines` of `main.go`. -/
def getLastKlines (w : World) (symbol interval : String) : Exec (Option Kline × Option GoError) :=
  (Exec.send w (Upstream.klines w.nowUnixMilli "1" symbol interval)).andThen fun r =>
  match r with
  | Except.error err => Exec.ret (none, some err)
  | Except.ok resp =>
    if resp.StatusCode ≠ 200 then
      Exec.ret (none, some ⟨s!"status code {resp.StatusCode}"⟩)
    else
      match ReadAll resp.Body with
      | (_, some err) => Exec.ret (none, some err)
      | (b, none) =>
        match w.UnmarshalRows b with
        | Except.error err => Exec.ret (none, some err)
        | Except.ok ks =>
          match ks with
          | [] => Exec.ret (none, some ⟨"no klines data"⟩)
          | kline :: _ =>
            ((sliceIndex kline 0).andThen assertFloat64).andThen fun openTime =>
            ((sliceIndex kline 1).andThen assertString).andThen fun open_ =>
            ((sliceIndex kline 4).andThen assertString).andThen fun high =>
            ((sliceIndex kline 2).andThen assertString).andThen fun low =>
            ((sliceIndex kline 3).andThen assertString).andThen fun close =>
            ((sliceIndex kline 5).andThen assertString).andThen fun volume =>
            Exec.ret (some {
              OpenTime := GoTime.unixMilli (toInt64 openTime)
              CloseTime := GoTime.zero
              Interval := interval
              Symbol := symbol
              Open := open_
              High := high
              Low := low
              Close := close
              Volume := volume
              Closed := false }, none)

/-- The function `calculatePriceChangeRate` of `main.go`. -/
def calculatePriceChangeRate (w : World) (kline : Kline) : float64 × Option GoError :=
  match w.ParseFloat kline.Open with
  | (_, some err) => (0, some err)
  | (open_, none) =>
    match w.ParseFloat kline.Close with
    | (_, some err) => (0, some err)
    | (close, none) =>
      if open_ = 0 then
        (0, some ⟨"open price cannot be zero"⟩)
      else
        let priceChangeRate := (close - open_) / open_
        (priceChangeRate, none)

/-- The function `multiplyChangeRate` of `main.go`; `draw` is the value of
`r.Float64()`. -/
def multiplyChangeRate {F : Type} [Mul F] [Add F] [OfScientific F] (draw : F) (changeRate : F) :
    F :=
  let multiplier := draw * 0.8 + 0.1
  let newChangeRate := changeRate * multiplier
  newChangeRate + changeRate

/-- The function `getCoinGeckoPrice` of `main.go`. -/
def getCoinGeckoPrice (w : World) (token apiKey : String) : Exec (float64 × Option GoError) :=
  (Exec.send w (Upstream.coinGecko token apiKey)).andThen fun r =>
  match r with
  | Except.error err => Exec.ret (0, some err)
  | Except.ok resp =>
    match w.DecodeNestedPrices resp.Body with
    | Except.error err => Exec.ret (0, some err)
    | Except.ok result =>
      Exec.ret (mapIndex 0 (mapIndex (fun _ => none) result token) "usd", none)

/-- The function `getCryptoComparePrice` of `main.go`. -/
def getCryptoComparePrice (w : World) (token apiKey : String) : Exec (float64 × Option GoError) :=
  (Exec.send w (Upstream.cryptoCompare token apiKey)).andThen fun r =>
  match r with
  | Except.error err => Exec.ret (0, some err)
  | Except.ok resp =>
    match w.DecodePrices resp.Body with
    | Except.error err => Exec.ret (0, some err)
    | Except.ok result => Exec.ret (mapIndex 0 result "USD", none)

/-- The function `handleCryptoRequest` of `main.go`; the result is the
response it writes. -/
def handleCryptoRequest (w : World) (cfg : envConfig) (token : String) : Exec Response :=
  let symbol := token ++ "USDT"
  (getLastKlines w symbol "15m").andThen fun r =>
  match r with
  | (_, some _) => Exec.ret (Response.string 500 "Error fetching klines")
  | (none, none) => Exec.panic GoPanic.nilDereference
  | (some k, none) =>
    match calculatePriceChangeRate w k with
    | (_, some _) => Exec.ret (Response.string 500 "Error calculating price change rate")
    | (rate, none) =>
      let rate := multiplyChangeRate w.multiplierDraw rate
      let close := (w.ParseFloat k.Close).1
      let price := close + (close * rate)
      (getCoinGeckoPrice w token cfg.CoinGeckoAPIKey).andThen fun cg =>
      (getCryptoComparePrice w token cfg.CryptoCompareAPIKey).andThen fun cc =>
      let cgPrice := cg.1
      let ccPrice := cc.1
      let weightedPrice := (price + cgPrice + ccPrice) / 3
      Exec.ret (Response.json 200 weightedPrice price cgPrice ccPrice)

/-- The function `getMemePrice` of `main.go`. -/
def getMemePrice (w : World) (network memeAddress : String) : Exec (String × Option GoError) :=
  let req := Upstream.geckoTerminal network memeAddress
  match w.NewRequest req with
  | some err => Exec.ret ("", some (wrapError "failed to create new request: " err))
  | none =>
    (Exec.send w req).andThen fun r =>
    match r with
    | Except.error err => Exec.ret ("", some (wrapError "failed to execute request: " err))
    | Except.ok resp =>
      match ReadAll resp.Body with
      | (_, some err) => Exec.ret ("", some (wrapError "failed to read response body: " err))
      | (body, none) =>
        match w.UnmarshalTokenPrices body with
        | Except.error err => Exec.ret ("", some (wrapError "failed to unmarshal response: " err))
        | Except.ok tokenPrices => Exec.ret (mapIndex "" tokenPrices memeAddress, none)

/-- The function `getLatestBlock` of `main.go`. -/
def getLatestBlock (w : World) (rpc : String) : Exec (String × Option GoError) :=
  let req := Upstream.nodeStatus rpc
  match w.NewRequest req with
  | some err => Exec.ret ("", some (wrapError "failed to create new request: " err))
  | none =>
    (Exec.send w req).andThen fun r =>
    match r with
    | Except.error err => Exec.ret ("", some (wrapError "failed to execute request: " err))
    | Except.ok resp =>
      match ReadAll resp.Body with
      | (_, some err) => Exec.ret ("", some (wrapError "failed to read response body: " err))
      | (body, none) =>
        match w.UnmarshalLatestBlock body with
        | Except.error err => Exec.ret ("", some (wrapError "failed to unmarshal response: " err))
        | Except.ok latestBlockHeight => Exec.ret (latestBlockHeight, none)

/-- The function `getMemeOracleData` of `main.go`. -/
def getMemeOracleData (w : World) (blockHeight apiKey : String) :
    Exec (Option memeOracleResponse × Option GoError) :=
  let req := Upstream.tokensOracle blockHeight apiKey
  match w.NewRequest req with
  | some err => Exec.ret (none, some (wrapError "failed to create new request: " err))
  | none =>
    (Exec.send w req).andThen fun r =>
    match r with
    | Except.error err => Exec.ret (none, some err)
    | Except.ok resp =>
      match ReadAll resp.Body with
      | (_, some err) => Exec.ret (none, some err)
      | (body, none) =>
        match w.UnmarshalMemeOracle body with
        | Except.error err => Exec.ret (none, some (wrapError "failed to unmarshal response: " err))
        | Except.ok res => Exec.ret (some res, none)

/-- The function `random` of `main.go`; `draw` is the value of `rand.Float64()`. -/
def random {F : Type} [Mul F] [Add F] [Sub F] [Div F] [OfNat F 6] [OfNat F 3] [OfNat F 100]
    (draw : F) (price : F) : F :=
  let randomPercent := draw * 6 - 3
  let priceChange := price * (randomPercent / 100)
  price + priceChange

/-- The function `handleMemeRequest` of `main.go`; the result is the response
it writes. -/
def handleMemeRequest (w : World) (cfg : envConfig) : Exec Response :=
  if cfg.APIKey = "" then
    Exec.ret (Response.string 400 "need api key")
  else if cfg.RPC = "" then
    Exec.ret (Response.string 500 "Invalid RPC configuration")
  else
    (getLatestBlock w cfg.RPC).andThen fun r =>
    match r with
    | (_, some _) => Exec.ret (Response.string 500 "Error fetching latest block")
    | (lb, none) =>
      (getMemeOracleData w lb cfg.APIKey).andThen fun r =>
      match r with
      | (_, some _) => Exec.ret (Response.string 500 "Error fetching meme oracle data")
      | (none, none) => Exec.panic GoPanic.nilDereference
      | (some meme, none) =>
        (getMemePrice w meme.Data.Platform meme.Data.Address).andThen fun r =>
        match r with
        | (_, some _) => Exec.ret (Response.string 500 "Error fetching meme price")
        | (mp, none) =>
          let mpf := (w.ParseFloat mp).1
          Exec.ret (Response.string 200 (w.FormatFloat (random w.randomDraw mpf)))

/-- Whether a fetch with a Go result pair ended with a non-nil error. -/
def Exec.failed {α : Type} (x : Exec (α × Option GoError)) : Bool :=
  match x.result with
  | Run.done (_, some _) => true
  | _ => false

/-- Status code written by a handler, if it wrote a response. -/
def Exec.status (x : Exec Response) : Option Nat :=
  match x.result with
  | Run.done resp => some resp.code
  | Run.panicked _ => none

/-- Whether a request goes to one of the two spot price providers. -/
def Upstream.isSpot : Upstream → Bool
  | Upstream.coinGecko _ _ => true
  | Upstream.cryptoCompare _ _ => true
  | _ => false

/-- Whether element `i` of a row exists and is a JSON number. -/
def isNumberAt (row : List JVal) (i : Nat) : Bool :=
  match row.get? i with
  | some (JVal.num _) => true
  | _ => false

/-- Whether element `i` of a row exists and is a JSON string. -/
def isStringAt (row : List JVal) (i : Nat) : Bool :=
  match row.get? i with
  | some (JVal.str _) => true
  | _ => false

/-- Shape mismatch of a candle row: fewer than six elements, element 0 not a
number, or one of the elements 1 to 5 not a string. -/
def shapeMismatch (row : List JVal) : Bool :=
  decide (row.length < 6) || !(isNumberAt row 0) || !([1, 2, 3, 4, 5].all (isStringAt row))

/-- The world `w` with the behaviour of the two spot price providers (their
HTTP answers and the decoding of these) replaced. -/
def World.withSpot (w : World) (get : Upstream → Except GoError HttpResponse)
    (nested : Body → Except GoError (String → Option (String → Option float64)))
    (flat : Body → Except GoError (String → Option float64)) : World :=
  { w with
    Get := fun u => if u.isSpot then get u else w.Get u
    DecodeNestedPrices := nested
    DecodePrices := flat }

/-- The world `w` in which the exchange answers 200 with a body that decodes
to the given rows. -/
def World.withRows (w : World) (rows : List (List JVal)) : World :=
  { w with
    Get := fun u =>
      match u with
      | Upstream.klines _ _ _ _ => Except.ok ⟨200, ⟨"rows", none⟩⟩
      | _ => w.Get u
    UnmarshalRows := fun _ => Except.ok rows }

/-! ## IEEE 754 binary64 -/

/-- Floor of the binary logarithm by repeated halving, with `fuel` steps. -/
def ilog2Aux : Nat → Nat → Nat
  | 0, _ => 0
  | fuel + 1, n => if n < 2 then 0 else ilog2Aux fuel (n / 2) + 1

/-- Floor of the binary logarithm of `n` (0 at 0). -/
def ilog2 (n : Nat) : Nat :=
  ilog2Aux n n

/-- The integer nearest to `n / d`, ties to even. -/
def rne (n d : Nat) : Nat :=
  let q := n / d
  let r := n % d
  if 2 * r < d then q else if d < 2 * r then q + 1 else q + q % 2

/-- The multiple of `2 ^ s` nearest to `n / d`, ties to even, where `s` leaves
53 significant bits. -/
def roundNat (n d : Nat) : Nat :=
  let s := ilog2 (n / d) - 52
  rne n (d * 2 ^ s) * 2 ^ s

/-- IEEE 754 binary64 value.  A finite value is a sign and a magnitude `k`,
standing for `k * 2 ^ (-1074)`; a float64 has `k < 2 ^ 2098` with at most 53
significant bits. -/
inductive Binary64 where
  | nan
  | inf (negative : Bool)
  | fin (negative : Bool) (k : Nat)
deriving DecidableEq, Repr

/-- Magnitude of the value 1, in units of `2 ^ (-1074)`. -/
@[irreducible]
def Binary64.unit : Nat :=
  2 ^ 1074

/-- Magnitude from which a rounded result overflows to an infinity. -/
@[irreducible]
def Binary64.huge : Nat :=
  2 ^ 2098

/-- The float64 nearest to the ratio `n / d` of units, with the given sign
(round to nearest, ties to even, overflow to infinity). -/
def Binary64.round (negative : Bool) (n d : Nat) : Binary64 :=
  if roundNat n d < Binary64.huge then Binary64.fin negative (roundNat n d)
  else Binary64.inf negative

/-- Negation of a float64. -/
def Binary64.neg : Binary64 → Binary64
  | Binary64.nan => Binary64.nan
  | Binary64.inf s => Binary64.inf (!s)
  | Binary64.fin s k => Binary64.fin (!s) k

/-- Absolute value of a float64. -/
def Binary64.abs : Binary64 → Binary64
  | Binary64.nan => Binary64.nan
  | Binary64.inf _ => Binary64.inf false
  | Binary64.fin _ k => Binary64.fin false k

/-- Addition of float64 values, rounded to nearest. -/
def Binary64.add : Binary64 → Binary64 → Binary64
  | Binary64.nan, _ => Binary64.nan
  | _, Binary64.nan => Binary64.nan
  | Binary64.inf s, Binary64.inf t => if s = t then Binary64.inf s else Binary64.nan
  | Binary64.inf s, Binary64.fin _ _ => Binary64.inf s
  | Binary64.fin _ _, Binary64.inf t => Binary64.inf t
  | Binary64.fin s a, Binary64.fin t b =>
    if s = t then Binary64.round s (a + b) 1
    else if a = b then Binary64.fin false 0
    else if b < a then Binary64.round s (a - b) 1
    else Binary64.round t (b - a) 1

/-- Multiplication of float64 values, rounded to nearest. -/
def Binary64.mul : Binary64 → Binary64 → Binary64
  | Binary64.nan, _ => Binary64.nan
  | _, Binary64.nan => Binary64.nan
  | Binary64.inf s, Binary64.inf t => Binary64.inf (xor s t)
  | Binary64.inf s, Binary64.fin t b => if b = 0 then Binary64.nan else Binary64.inf (xor s t)
  | Binary64.fin s a, Binary64.inf t => if a = 0 then Binary64.nan else Binary64.inf (xor s t)
  | Binary64.fin s a, Binary64.fin t b => Binary64.round (xor s t) (a * b) Binary64.unit

/-- Division of float64 values, rounded to nearest. -/
def Binary64.div : Binary64 → Binary64 → Binary64
  | Binary64.nan, _ => Binary64.nan
  | _, Binary64.nan => Binary64.nan
  | Binary64.inf _, Binary64.inf _ => Binary64.nan
  | Binary64.inf s, Binary64.fin t _ => Binary64.inf (xor s t)
  | Binary64.fin s _, Binary64.inf t => Binary64.fin (xor s t) 0
  | Binary64.fin s a, Binary64.fin t b =>
    if b = 0 then (if a = 0 then Binary64.nan else Binary64.inf (xor s t))
    else Binary64.round (xor s t) (a * Binary64.unit) b

instance : Neg Binary64 := ⟨Binary64.neg⟩

instance : Add Binary64 := ⟨Binary64.add⟩

instance : Sub Binary64 := ⟨fun x y => Binary64.add x (Binary64.neg y)⟩

instance : Mul Binary64 := ⟨Binary64.mul⟩

instance : Div Binary64 := ⟨Binary64.div⟩

/-- A decimal constant, converted to the nearest float64. -/
instance : OfScientific Binary64 :=
  ⟨fun mantissa exponentSign e =>
    if exponentSign then Binary64.round false (mantissa * Binary64.unit) (10 ^ e)
    else Binary64.round false (mantissa * 10 ^ e * Binary64.unit) 1⟩

/-- An integer constant, converted to the nearest float64. -/
instance (n : Nat) : OfNat Binary64 n :=
  ⟨Binary64.round false (n * Binary64.unit) 1⟩

/-- Position of a float64 on the number line, in units of `2 ^ (-1074)`; the
infinities sit at `2 ^ 2098` and its negative, NaN is given 0. -/
def Binary64.key : Binary64 → Int
  | Binary64.nan => 0
  | Binary64.inf false => Binary64.huge
  | Binary64.inf true => -Binary64.huge
  | Binary64.fin false k => k
  | Binary64.fin true k => -k

/-- Comparison `<=` of float64 values: false when an operand is NaN. -/
instance : LE Binary64 :=
  ⟨fun x y => x ≠ Binary64.nan ∧ y ≠ Binary64.nan ∧ x.key ≤ y.key⟩

/-- Comparison `<` of float64 values: false when an operand is NaN. -/
instance : LT Binary64 :=
  ⟨fun x y => x ≠ Binary64.nan ∧ y ≠ Binary64.nan ∧ x.key < y.key⟩

instance (x y : Binary64) : Decidable (x ≤ y) :=
  inferInstanceAs (Decidable (x ≠ Binary64.nan ∧ y ≠ Binary64.nan ∧ x.key ≤ y.key))

instance (x y : Binary64) : Decidable (x < y) :=
  inferInstanceAs (Decidable (x ≠ Binary64.nan ∧ y ≠ Binary64.nan ∧ x.key < y.key))

/-- Whether the value is a float64: NaN, an infinity, or a finite value below
`2 ^ 1024` whose magnitude has at most 53 significant bits. -/
def Binary64.isFloat : Binary64 → Bool
  | Binary64.fin _ k => decide (k < Binary64.huge) && decide (k % 2 ^ (ilog2 k - 52) = 0)
  | _ => true

/-- Whether the value is finite. -/
def Binary64.isFinite : Binary64 → Bool
  | Binary64.fin _ k => decide (k < Binary64.huge)
  | _ => false

/-- The largest float64 below 1, that is `1 - 2 ^ (-53)`. -/
def Binary64.predOne : Binary64 :=
  Binary64.fin false (2 ^ 1074 - 2 ^ 1021)

/-- The key of the float64 nearest to the signed ratio `z / d` of units. -/
def keyRound (z : Int) (d : Nat) : Int :=
  if 0 ≤ z then ((min (roundNat z.toNat d) Binary64.huge : Nat) : Int)
  else -((min (roundNat (-z).toNat d) Binary64.huge : Nat) : Int)

/-! ## A concrete world, used to run the definitions -/

/-- A decoder of a few decimal numerals, standing in for `strconv.ParseFloat`. -/
def sampleParseFloat (s : String) : float64 × Option GoError :=
  if s = "100" then (100, none)
  else if s = "110" then (110, none)
  else if s = "98" then (98, none)
  else if s = "0" then (0, none)
  else (0, some ⟨"invalid syntax"⟩)

/-- A world in which the exchange answers with one row, which `getLastKlines`
reads as the candle with open "100" and close "110", and both spot price
providers are unreachable. -/
def sampleWorld : World where
  nowUnixMilli := 1700000000000
  multiplierDraw := 7 / 8
  randomDraw := 0
  NewRequest := fun _ => none
  Get := fun u =>
    match u with
    | Upstream.klines _ _ _ _ => Except.ok ⟨200, ⟨"rows", none⟩⟩
    | Upstream.nodeStatus _ => Except.ok ⟨200, ⟨"status", none⟩⟩
    | _ => Except.error ⟨"connection refused"⟩
  ParseFloat := sampleParseFloat
  FormatFloat := fun f => toString f
  UnmarshalRows := fun _ =>
    Except.ok [[JVal.num 1699999200000, JVal.str "100", JVal.str "98", JVal.str "110",
      JVal.str "112", JVal.str "5", JVal.num 1700000099999]]
  DecodeNestedPrices := fun _ => Except.error ⟨"unexpected end of JSON input"⟩
  DecodePrices := fun _ => Except.error ⟨"unexpected end of JSON input"⟩
  UnmarshalTokenPrices := fun _ => Except.error ⟨"unexpected end of JSON input"⟩
  UnmarshalLatestBlock := fun _ => Except.ok "42"
  UnmarshalMemeOracle := fun _ => Except.error ⟨"unexpected end of JSON input"⟩

/-- A row in the order of the exchange: open time, open 100, high 112,
low 98, close 110, volume 5, close time. -/
def exchangeRow : List JVal :=
  [JVal.num 1699999200000, JVal.str "100", JVal.str "112", JVal.str "98", JVal.str "110",
    JVal.str "5", JVal.num 1700000099999]

/-- The sample world with the exchange answering the single row `exchangeRow`. -/
def exchangeWorld : World :=
  sampleWorld.withRows [exchangeRow]

/-- A row with two elements only. -/
def shortRow : List JVal :=
  [JVal.num 1699999200000, JVal.str "100"]

/-- The sample world with the exchange answering the single row `shortRow`. -/
def shortRowWorld : World :=
  sampleWorld.withRows [shortRow]

/-- A configuration with every setting present. -/
def sampleConfig : envConfig :=
  ⟨"key", "http://localhost:26657", "cg", "cc"⟩

/-- The candle with open 100 and close 110. -/
def sampleKline : Kline where
  OpenTime := GoTime.unixMilli 1699999200000
  CloseTime := GoTime.zero
  Interval := "15m"
  Symbol := "BTCUSDT"
  Open := "100"
  High := "112"
  Low := "98"
  Close := "110"
  Volume := "5"
  Closed := false

/-- The candle with open 0 and close 110. -/
def zeroOpenKline : Kline :=
  { sampleKline with Open := "0" }

/-- A configuration without API key. -/
def noKeyConfig : envConfig :=
  ⟨"", "http://localhost:26657", "cg", "cc"⟩

/-- A configuration with an API key and without RPC base URL. -/
def noRPCConfig : envConfig :=
  ⟨"key", "", "cg", "cc"⟩

/-! ## Sequencing -/

theorem Exec.andThen_result {α β : Type} (x : Exec α) (f : α → Exec β) :
    (x.andThen f).result =
      match x.result with
      | Run.done a => (f a).result
      | Run.panicked p => Run.panicked p := by
  unfold Exec.andThen
  cases x.result <;> rfl

theorem Exec.andThen_result_done {α β : Type} (x : Exec α) (f : α → Exec β) (a : α)
    (h : x.result = Run.done a) : (x.andThen f).result = (f a).result := by
  rw [Exec.andThen_result, h]

theorem Exec.andThen_result_panicked {α β : Type} (x : Exec α) (f : α → Exec β) (p : GoPanic)
    (h : x.result = Run.panicked p) : (x.andThen f).result = Run.panicked p := by
  rw [Exec.andThen_result, h]

theorem Exec.andThen_calls_done {α β : Type} (x : Exec α) (f : α → Exec β) (a : α)
    (h : x.result = Run.done a) : (x.andThen f).calls = x.calls ++ (f a).calls := by
  unfold Exec.andThen
  rw [h]

theorem Exec.send_result (w : World) (u : Upstream) :
    (Exec.send w u).result = Run.done (w.Get u) := rfl

theorem getCoinGeckoPrice_done (w : World) (token apiKey : String) :
    ∃ v err, (getCoinGeckoPrice w token apiKey).result = Run.done (v, err) ∧
      (err ≠ none → v = 0) := by
  unfold getCoinGeckoPrice
  rw [Exec.andThen_result_done _ _ _ (Exec.send_result _ _)]
  rcases w.Get (Upstream.coinGecko token apiKey) with err | resp
  · exact ⟨0, some err, rfl, fun _ => rfl⟩
  · rcases h : w.DecodeNestedPrices resp.Body with err | result
    · exact ⟨0, some err, by simp [h, Exec.ret], fun _ => rfl⟩
    · exact ⟨mapIndex 0 (mapIndex (fun _ => none) result token) "usd", none,
        by simp [h, Exec.ret], fun h => absurd rfl h⟩

theorem getCryptoComparePrice_done (w : World) (token apiKey : String) :
    ∃ v err, (getCryptoComparePrice w token apiKey).result = Run.done (v, err) ∧
      (err ≠ none → v = 0) := by
  unfold getCryptoComparePrice
  rw [Exec.andThen_result_done _ _ _ (Exec.send_result _ _)]
  rcases w.Get (Upstream.cryptoCompare token apiKey) with err | resp
  · exact ⟨0, some err, rfl, fun _ => rfl⟩
  · rcases h : w.DecodePrices resp.Body with err | result
    · exact ⟨0, some err, by simp [h, Exec.ret], fun _ => rfl⟩
    · exact ⟨mapIndex 0 result "USD", none, by simp [h, Exec.ret], fun h => absurd rfl h⟩

/-! ## The change rate -/

/-- C1: whenever the open and close strings of a candle parse to numbers `o`
and `c` with `o ≠ 0`, `calculatePriceChangeRate` returns the rate
`(c - o) / o` and no error. -/
theorem calculatePriceChangeRate_rate (w : World) (kline : Kline) (o c : float64)
    (ho : w.ParseFloat kline.Open = (o, none)) (hc : w.ParseFloat kline.Close = (c, none))
    (hne : o ≠ 0) :
    calculatePriceChangeRate w kline = ((c - o) / o, none) := by
  simp [calculatePriceChangeRate, ho, hc, hne]

/-- Witness of C1 on the candle with open 100 and close 110. -/
theorem calculatePriceChangeRate_rate_witness :
    calculatePriceChangeRate sampleWorld sampleKline = (((110 : float64) - 100) / 100, none) :=
  calculatePriceChangeRate_rate sampleWorld sampleKline 100 110 (by decide) (by decide)
    (by decide)

/-- C2: `calculatePriceChangeRate` returns an error exactly when the open
string does not parse, the close string does not parse, or the open string
parses to zero; and when the open string parses to zero the result is an
error together with the zero value, never a rate. -/
theorem calculatePriceChangeRate_error_iff (w : World) (kline : Kline) :
    ((calculatePriceChangeRate w kline).2 ≠ none ↔
      ((w.ParseFloat kline.Open).2 ≠ none ∨ (w.ParseFloat kline.Close).2 ≠ none ∨
        (w.ParseFloat kline.Open).1 = 0)) ∧
    ((w.ParseFloat kline.Open).1 = 0 →
      ∃ err, calculatePriceChangeRate w kline = (0, some err)) := by
  unfold calculatePriceChangeRate
  rcases ho : w.ParseFloat kline.Open with ⟨o, _ | eo⟩ <;>
    rcases hc : w.ParseFloat kline.Close with ⟨c, _ | ec⟩ <;>
    by_cases hz : o = 0 <;> simp [hz]

/-- Witness of C2: the candle with open "0" yields an error and the zero value. -/
theorem calculatePriceChangeRate_error_iff_witness :
    ∃ err, calculatePriceChangeRate sampleWorld zeroOpenKline = (0, some err) :=
  (calculatePriceChangeRate_error_iff sampleWorld zeroOpenKline).2 (by decide)

/-! ## The blended price -/

/-- C3: in every run of `handleCryptoRequest` that ends with the JSON
response, the field `price` is the mean of the three other fields, the two
spot fields are the values returned by the two spot price fetches, a fetch
that failed contributes exactly 0, and when both failed `price` is
`binance_price / 3`. -/
theorem handleCryptoRequest_price (w : World) (cfg : envConfig) (token : String) (code : Nat)
    (price binance coingecko cryptocompare : float64)
    (h : (handleCryptoRequest w cfg token).result =
      Run.done (Response.json code price binance coingecko cryptocompare)) :
    code = 200 ∧
    price = (binance + coingecko + cryptocompare) / 3 ∧
    (∃ e, (getCoinGeckoPrice w token cfg.CoinGeckoAPIKey).result = Run.done (coingecko, e)) ∧
    (∃ e, (getCryptoComparePrice w token cfg.CryptoCompareAPIKey).result =
      Run.done (cryptocompare, e)) ∧
    ((getCoinGeckoPrice w token cfg.CoinGeckoAPIKey).failed = true → coingecko = 0) ∧
    ((getCryptoComparePrice w token cfg.CryptoCompareAPIKey).failed = true →
      cryptocompare = 0) ∧
    ((getCoinGeckoPrice w token cfg.CoinGeckoAPIKey).failed = true →
      (getCryptoComparePrice w token cfg.CryptoCompareAPIKey).failed = true →
      price = binance / 3) := by
  obtain ⟨v1, e1, h1, z1⟩ := getCoinGeckoPrice_done w token cfg.CoinGeckoAPIKey
  obtain ⟨v2, e2, h2, z2⟩ := getCryptoComparePrice_done w token cfg.CryptoCompareAPIKey
  unfold handleCryptoRequest at h
  rcases hk : (getLastKlines w (token ++ "USDT") "15m").result with ⟨k, ek⟩ | p
  · rw [Exec.andThen_result_done _ _ _ hk] at h
    rcases ek with _ | ek
    · rcases k with _ | k
      · simp [Exec.panic] at h
      · rcases hr : calculatePriceChangeRate w k with ⟨rate, _ | er⟩
        · simp only [hr] at h
          rw [Exec.andThen_result_done _ _ _ h1, Exec.andThen_result_done _ _ _ h2] at h
          simp only [Exec.ret, Run.done.injEq, Response.json.injEq] at h
          obtain ⟨hcode, hp, hb, hcg, hcc⟩ := h
          subst hcode hb hcg hcc
          have f1 : (getCoinGeckoPrice w token cfg.CoinGeckoAPIKey).failed = true → v1 = 0 := by
            intro hf
            apply z1
            rintro rfl
            simp [Exec.failed, h1] at hf
          have f2 : (getCryptoComparePrice w token cfg.CryptoCompareAPIKey).failed = true →
              v2 = 0 := by
            intro hf
            apply z2
            rintro rfl
            simp [Exec.failed, h2] at hf
          refine ⟨rfl, hp.symm, ⟨e1, h1⟩, ⟨e2, h2⟩, f1, f2, ?_⟩
          intro hf1 hf2
          rw [← hp, f1 hf1, f2 hf2]
          simp
        · simp [hr, Exec.ret] at h
    · simp [Exec.ret] at h
  · rw [Exec.andThen_result_panicked _ _ _ hk] at h
    simp at h

/-- Witness of C3: the exchange answers, both spot price providers fail. -/
theorem handleCryptoRequest_price_witness :
    (200 : Nat) = 200 ∧
    (649 / 15 : float64) = (649 / 5 + 0 + 0) / 3 ∧
    (∃ e, (getCoinGeckoPrice sampleWorld "BTC" sampleConfig.CoinGeckoAPIKey).result =
      Run.done (0, e)) ∧
    (∃ e, (getCryptoComparePrice sampleWorld "BTC" sampleConfig.CryptoCompareAPIKey).result =
      Run.done (0, e)) ∧
    ((getCoinGeckoPrice sampleWorld "BTC" sampleConfig.CoinGeckoAPIKey).failed = true →
      (0 : float64) = 0) ∧
    ((getCryptoComparePrice sampleWorld "BTC" sampleConfig.CryptoCompareAPIKey).failed = true →
      (0 : float64) = 0) ∧
    ((getCoinGeckoPrice sampleWorld "BTC" sampleConfig.CoinGeckoAPIKey).failed = true →
      (getCryptoComparePrice sampleWorld "BTC" sampleConfig.CryptoCompareAPIKey).failed = true →
      (649 / 15 : float64) = 649 / 5 / 3) :=
  handleCryptoRequest_price sampleWorld sampleConfig "BTC" 200 (649 / 15) (649 / 5) 0 0
    (by
      simp [handleCryptoRequest, getLastKlines, Exec.andThen, Exec.send, sampleWorld, ReadAll,
        sliceIndex, assertFloat64, assertString, Exec.ret, calculatePriceChangeRate,
        sampleParseFloat, getCoinGeckoPrice, getCryptoComparePrice, multiplyChangeRate]
      norm_num)

/-! ## The status of the crypto handler -/

theorem getLastKlines_withSpot (w : World) (get : Upstream → Except GoError HttpResponse)
    (nested : Body → Except GoError (String → Option (String → Option float64)))
    (flat : Body → Except GoError (String → Option float64)) (symbol interval : String) :
    getLastKlines (w.withSpot get nested flat) symbol interval =
      getLastKlines w symbol interval := rfl

/-- A run of `getLastKlines` never ends with a nil candle and a nil error, so
the dereference `*k` in `handleCryptoRequest` is safe. -/
theorem getLastKlines_not_nil (w : World) (symbol interval : String) :
    (getLastKlines w symbol interval).result ≠ Run.done (none, none) := by
  unfold getLastKlines
  rw [Exec.andThen_result_done _ _ _ (Exec.send_result _ _)]
  rcases w.Get (Upstream.klines w.nowUnixMilli "1" symbol interval) with err | resp
  · simp [Exec.ret]
  · by_cases hs : resp.StatusCode = 200
    · rcases hb : ReadAll resp.Body with ⟨b, _ | err⟩
      · rcases hu : w.UnmarshalRows b with err | ks
        · simp [hs, hb, hu, Exec.ret]
        · rcases ks with _ | ⟨kline, rest⟩
          · simp [hs, hb, hu, Exec.ret]
          · simp only [hs, hb, hu, ne_eq, not_true_eq_false, if_false]
            simp only [Exec.andThen_result]
            repeat' split
            all_goals simp [Exec.ret]
      · simp [hs, hb, Exec.ret]
    · simp [hs, Exec.ret]

theorem handleCryptoRequest_status_eq (w : World) (cfg : envConfig) (token : String) :
    (handleCryptoRequest w cfg token).status =
      match (getLastKlines w (token ++ "USDT") "15m").result with
      | Run.panicked _ => none
      | Run.done (_, some _) => some 500
      | Run.done (none, none) => none
      | Run.done (some k, none) =>
        match (calculatePriceChangeRate w k).2 with
        | some _ => some 500
        | none => some 200 := by
  obtain ⟨v1, e1, h1, -⟩ := getCoinGeckoPrice_done w token cfg.CoinGeckoAPIKey
  obtain ⟨v2, e2, h2, -⟩ := getCryptoComparePrice_done w token cfg.CryptoCompareAPIKey
  unfold handleCryptoRequest Exec.status
  rcases hk : (getLastKlines w (token ++ "USDT") "15m").result with ⟨k, ek⟩ | p
  · rw [Exec.andThen_result_done _ _ _ hk]
    rcases ek with _ | ek
    · rcases k with _ | k
      · simp [Exec.panic]
      · rcases hr : calculatePriceChangeRate w k with ⟨rate, _ | er⟩
        · simp only [hr]
          rw [Exec.andThen_result_done _ _ _ h1, Exec.andThen_result_done _ _ _ h2]
          simp [Exec.ret, Response.code]
        · simp [hr, Exec.ret, Response.code]
    · simp [Exec.ret, Response.code]
  · rw [Exec.andThen_result_panicked _ _ _ hk]

theorem getLastKlines_empty (w : World) (symbol interval : String) (resp : HttpResponse)
    (b : String) (hg : w.Get (Upstream.klines w.nowUnixMilli "1" symbol interval) = Except.ok resp)
    (hs : resp.StatusCode = 200) (hb : ReadAll resp.Body = (b, none))
    (hu : w.UnmarshalRows b = Except.ok []) :
    (getLastKlines w symbol interval).result = Run.done (none, some ⟨"no klines data"⟩) := by
  unfold getLastKlines
  rw [Exec.andThen_result_done _ _ _ (Exec.send_result _ _)]
  simp [hg, hs, hb, hu, Exec.ret]

/-- C4: `handleCryptoRequest` writes status 200 exactly when `getLastKlines`
returns a candle without error and `calculatePriceChangeRate` returns no error;
when the candle fetch returns an error (in particular on an empty candle list)
or the rate calculation returns an error it writes 500; and replacing the
behaviour of the two spot price providers by any other never changes the
status. -/
theorem handleCryptoRequest_status (w : World) (cfg : envConfig) (token : String) :
    ((handleCryptoRequest w cfg token).status = some 200 ↔
      ∃ k, (getLastKlines w (token ++ "USDT") "15m").result = Run.done (some k, none) ∧
        (calculatePriceChangeRate w k).2 = none) ∧
    ((getLastKlines w (token ++ "USDT") "15m").failed = true →
      (handleCryptoRequest w cfg token).result =
        Run.done (Response.string 500 "Error fetching klines")) ∧
    (∀ resp b, w.Get (Upstream.klines w.nowUnixMilli "1" (token ++ "USDT") "15m") =
        Except.ok resp → resp.StatusCode = 200 → ReadAll resp.Body = (b, none) →
      w.UnmarshalRows b = Except.ok [] →
      (handleCryptoRequest w cfg token).result =
        Run.done (Response.string 500 "Error fetching klines")) ∧
    (∀ k, (getLastKlines w (token ++ "USDT") "15m").result = Run.done (some k, none) →
      (calculatePriceChangeRate w k).2 ≠ none →
      (handleCryptoRequest w cfg token).result =
        Run.done (Response.string 500 "Error calculating price change rate")) ∧
    (∀ get nested flat,
      (handleCryptoRequest (w.withSpot get nested flat) cfg token).status =
        (handleCryptoRequest w cfg token).status) := by
  have hfail : (getLastKlines w (token ++ "USDT") "15m").failed = true →
      (handleCryptoRequest w cfg token).result =
        Run.done (Response.string 500 "Error fetching klines") := by
    intro hf
    unfold handleCryptoRequest
    rcases hk : (getLastKlines w (token ++ "USDT") "15m").result with ⟨k, _ | ek⟩ | p
    · simp [Exec.failed, hk] at hf
    · rw [Exec.andThen_result_done _ _ _ hk]
      simp [Exec.ret]
    · simp [Exec.failed, hk] at hf
  refine ⟨?_, hfail, ?_, ?_, ?_⟩
  · rw [handleCryptoRequest_status_eq]
    rcases hk : (getLastKlines w (token ++ "USDT") "15m").result with ⟨k, _ | ek⟩ | p
    · rcases k with _ | k
      · simp
      · rcases hr : (calculatePriceChangeRate w k).2 with _ | er <;> simp [hr]
    · simp
    · simp
  · intro resp b hg hs hb hu
    apply hfail
    simp [Exec.failed, getLastKlines_empty w _ _ resp b hg hs hb hu]
  · intro k hk hr
    unfold handleCryptoRequest
    rw [Exec.andThen_result_done _ _ _ hk]
    rcases hc : calculatePriceChangeRate w k with ⟨rate, _ | er⟩
    · simp [hc] at hr
    · simp [hc, Exec.ret]
  · intro get nested flat
    rw [handleCryptoRequest_status_eq, handleCryptoRequest_status_eq, getLastKlines_withSpot]
    rfl

/-- Witness of C4: in the sample world the candle fetch and the rate
calculation succeed and the status is 200, although both spot price fetches
fail. -/
theorem handleCryptoRequest_status_witness :
    (handleCryptoRequest sampleWorld sampleConfig "BTC").status = some 200 ∧
    (getCoinGeckoPrice sampleWorld "BTC" sampleConfig.CoinGeckoAPIKey).failed = true ∧
    (getCryptoComparePrice sampleWorld "BTC" sampleConfig.CryptoCompareAPIKey).failed = true :=
  ⟨(handleCryptoRequest_status sampleWorld sampleConfig "BTC").1.mpr
      ⟨sampleKline,
        by
          simp [getLastKlines, Exec.andThen, Exec.send, sampleWorld, ReadAll, sliceIndex,
            assertFloat64, assertString, Exec.ret, sampleKline, toInt64],
        by decide⟩,
    by decide, by decide⟩

/-! ## Rounding to nearest in binary64 -/

theorem ilog2Aux_eq (fuel n : Nat) (h : n ≤ fuel) : ilog2Aux fuel n = Nat.log 2 n := by
  induction fuel generalizing n with
  | zero =>
    have : n = 0 := by omega
    subst this
    simp [ilog2Aux]
  | succ fuel ih =>
    unfold ilog2Aux
    by_cases h2 : n < 2
    · simp [h2, Nat.log_of_lt h2]
    · simp only [h2, if_false]
      have e : Nat.log 2 n = Nat.log 2 (n / 2) + 1 :=
        @Nat.log_of_one_lt_of_le 2 n (by norm_num) (by omega)
      rw [ih (n / 2) (by omega), e]

/-- The halving loop computes the floor of the binary logarithm. -/
theorem ilog2_eq (n : Nat) : ilog2 n = Nat.log 2 n :=
  ilog2Aux_eq n n (le_refl n)

theorem rne_ge (n d : Nat) : n / d ≤ rne n d := by
  unfold rne
  simp only
  split_ifs <;> omega

theorem rne_le (n d : Nat) : rne n d ≤ n / d + 1 := by
  unfold rne
  simp only
  split_ifs <;> omega

theorem rne_exact (k d : Nat) (hd : 0 < d) : rne (k * d) d = k := by
  unfold rne
  simp [Nat.mul_div_cancel _ hd, hd]

theorem div_le_div_of_cross (n1 d1 n2 d2 : Nat) (hd1 : 0 < d1) (hd2 : 0 < d2)
    (h : n1 * d2 ≤ n2 * d1) : n1 / d1 ≤ n2 / d2 := by
  rw [Nat.le_div_iff_mul_le hd2]
  have h1 : n1 / d1 * d1 ≤ n1 := Nat.div_mul_le_self n1 d1
  have h2 : n1 / d1 * d2 * d1 ≤ n2 * d1 := by
    calc n1 / d1 * d2 * d1 = n1 / d1 * d1 * d2 := by ring
      _ ≤ n1 * d2 := Nat.mul_le_mul_right _ h1
      _ ≤ n2 * d1 := h
  exact Nat.le_of_mul_le_mul_right h2 hd1

theorem rne_mono (n1 d1 n2 d2 : Nat) (hd1 : 0 < d1) (hd2 : 0 < d2)
    (h : n1 * d2 ≤ n2 * d1) : rne n1 d1 ≤ rne n2 d2 := by
  have hq := div_le_div_of_cross n1 d1 n2 d2 hd1 hd2 h
  rcases Nat.lt_or_eq_of_le hq with hlt | heq
  · calc rne n1 d1 ≤ n1 / d1 + 1 := rne_le _ _
      _ ≤ n2 / d2 := hlt
      _ ≤ rne n2 d2 := rne_ge _ _
  · have e1 := Nat.div_add_mod n1 d1
    have e2 := Nat.div_add_mod n2 d2
    have hr1 := Nat.mod_lt n1 hd1
    have hr2 := Nat.mod_lt n2 hd2
    have hr : n1 % d1 * d2 ≤ n2 % d2 * d1 := by
      have : (d1 * (n1 / d1) + n1 % d1) * d2 ≤ (d2 * (n2 / d2) + n2 % d2) * d1 := by
        rw [e1, e2]; exact h
      rw [heq] at this
      nlinarith
    unfold rne
    simp only
    rw [heq]
    split_ifs with a1 a2 a3 a4 a5 a6
    all_goals first | omega | (exfalso; nlinarith)

theorem lt_pow_shift (q : Nat) : q < 2 ^ (53 + (ilog2 q - 52)) := by
  rw [ilog2_eq]
  calc q < 2 ^ (Nat.log 2 q).succ := Nat.lt_pow_succ_log_self (by norm_num) q
    _ ≤ 2 ^ (53 + (Nat.log 2 q - 52)) := Nat.pow_le_pow_right (by norm_num) (by omega)

theorem pow_shift_le (q : Nat) (h : 0 < ilog2 q - 52) : 2 ^ (52 + (ilog2 q - 52)) ≤ q := by
  rw [ilog2_eq] at h ⊢
  have hq : q ≠ 0 := by
    rintro rfl
    simp at h
  calc 2 ^ (52 + (Nat.log 2 q - 52)) = 2 ^ Nat.log 2 q := by congr 1; omega
    _ ≤ q := Nat.pow_log_le_self 2 hq

theorem shift_mono (q1 q2 : Nat) (h : q1 ≤ q2) : ilog2 q1 - 52 ≤ ilog2 q2 - 52 := by
  rw [ilog2_eq, ilog2_eq]
  have := @Nat.log_mono_right 2 _ _ h
  omega

/-- Rounding to nearest is monotone: a smaller ratio rounds to a smaller value. -/
theorem roundNat_mono (n1 d1 n2 d2 : Nat) (hd1 : 0 < d1) (hd2 : 0 < d2)
    (h : n1 * d2 ≤ n2 * d1) : roundNat n1 d1 ≤ roundNat n2 d2 := by
  have hq := div_le_div_of_cross n1 d1 n2 d2 hd1 hd2 h
  have hs := shift_mono _ _ hq
  unfold roundNat
  simp only
  generalize hs1 : ilog2 (n1 / d1) - 52 = s1 at hs
  generalize hs2 : ilog2 (n2 / d2) - 52 = s2 at hs
  rcases Nat.lt_or_eq_of_le hs with hlt | heq
  · have hB1 : n1 / d1 < 2 ^ (53 + s1) := by
      have := lt_pow_shift (n1 / d1)
      rw [hs1] at this
      exact this
    have hB2 : 2 ^ (52 + s2) ≤ n2 / d2 := by
      have := pow_shift_le (n2 / d2) (by rw [hs2]; omega)
      rw [hs2] at this
      exact this
    have p1 : 0 < d1 * 2 ^ s1 := Nat.mul_pos hd1 (Nat.two_pow_pos _)
    have p2 : 0 < d2 * 2 ^ s2 := Nat.mul_pos hd2 (Nat.two_pow_pos _)
    have u1 : n1 / (d1 * 2 ^ s1) < 2 ^ 53 := by
      rw [Nat.div_lt_iff_lt_mul p1]
      rw [Nat.div_lt_iff_lt_mul hd1] at hB1
      calc n1 < 2 ^ (53 + s1) * d1 := hB1
        _ = 2 ^ 53 * (d1 * 2 ^ s1) := by rw [pow_add]; ring
    have u2 : 2 ^ 52 ≤ n2 / (d2 * 2 ^ s2) := by
      rw [Nat.le_div_iff_mul_le p2]
      rw [Nat.le_div_iff_mul_le hd2] at hB2
      calc 2 ^ 52 * (d2 * 2 ^ s2) = 2 ^ (52 + s2) * d2 := by rw [pow_add]; ring
        _ ≤ n2 := hB2
    have r1 : rne n1 (d1 * 2 ^ s1) ≤ 2 ^ 53 := by
      have := rne_le n1 (d1 * 2 ^ s1)
      omega
    have r2 : 2 ^ 52 ≤ rne n2 (d2 * 2 ^ s2) := le_trans u2 (rne_ge _ _)
    calc rne n1 (d1 * 2 ^ s1) * 2 ^ s1 ≤ 2 ^ 53 * 2 ^ s1 := Nat.mul_le_mul_right _ r1
      _ = 2 ^ (53 + s1) := by rw [pow_add]
      _ ≤ 2 ^ (52 + s2) := Nat.pow_le_pow_right (by norm_num) (by omega)
      _ = 2 ^ 52 * 2 ^ s2 := by rw [pow_add]
      _ ≤ rne n2 (d2 * 2 ^ s2) * 2 ^ s2 := Nat.mul_le_mul_right _ r2
  · subst heq
    have p1 : 0 < d1 * 2 ^ s1 := Nat.mul_pos hd1 (Nat.two_pow_pos _)
    have p2 : 0 < d2 * 2 ^ s1 := Nat.mul_pos hd2 (Nat.two_pow_pos _)
    apply Nat.mul_le_mul_right
    apply rne_mono _ _ _ _ p1 p2
    calc n1 * (d2 * 2 ^ s1) = n1 * d2 * 2 ^ s1 := by ring
      _ ≤ n2 * d1 * 2 ^ s1 := Nat.mul_le_mul_right _ h
      _ = n2 * (d1 * 2 ^ s1) := by ring

/-- Rounding leaves a value with at most 53 significant bits unchanged. -/
theorem roundNat_exact (k d : Nat) (hd : 0 < d) (hk : 2 ^ (ilog2 k - 52) ∣ k) :
    roundNat (k * d) d = k := by
  unfold roundNat
  simp only [Nat.mul_div_cancel _ hd]
  generalize ilog2 k - 52 = s at hk
  obtain ⟨j, hj⟩ := hk
  have p : 0 < d * 2 ^ s := Nat.mul_pos hd (Nat.two_pow_pos _)
  have e : k * d = j * (d * 2 ^ s) := by
    rw [hj]
    ring
  rw [e, rne_exact j _ p, hj]
  ring

theorem Binary64.unit_pos : 0 < Binary64.unit := by
  unfold Binary64.unit
  positivity

theorem roundNat_zero (d : Nat) : roundNat 0 d = 0 := by
  simp [roundNat, rne]

theorem Binary64.key_round (s : Bool) (n d : Nat) :
    (Binary64.round s n d).key =
      if s then -((min (roundNat n d) Binary64.huge : Nat) : Int)
      else ((min (roundNat n d) Binary64.huge : Nat) : Int) := by
  unfold Binary64.round
  by_cases h : roundNat n d < Binary64.huge
  · cases s <;> simp [h, Binary64.key, Nat.min_eq_left (Nat.le_of_lt h)]
  · have h2 : Binary64.huge ≤ roundNat n d := Nat.le_of_not_lt h
    cases s <;> simp [h, Binary64.key, Nat.min_eq_right h2]

theorem Binary64.round_ne_nan (s : Bool) (n d : Nat) : Binary64.round s n d ≠ Binary64.nan := by
  unfold Binary64.round
  split_ifs <;> simp

theorem keyRound_nonneg (n d : Nat) :
    keyRound (n : Int) d = ((min (roundNat n d) Binary64.huge : Nat) : Int) := by
  simp [keyRound]

theorem keyRound_neg (n d : Nat) :
    keyRound (-(n : Int)) d = -((min (roundNat n d) Binary64.huge : Nat) : Int) := by
  unfold keyRound
  by_cases h : n = 0
  · subst h
    simp [roundNat_zero]
  · have : ¬ (0 : Int) ≤ -(n : Int) := by omega
    simp [this]

/-- Rounding of signed ratios is monotone, overflow to the infinities included. -/
theorem keyRound_mono (z1 z2 : Int) (d1 d2 : Nat) (hd1 : 0 < d1) (hd2 : 0 < d2)
    (h : z1 * d2 ≤ z2 * d1) : keyRound z1 d1 ≤ keyRound z2 d2 := by
  have c1 : (0 : Int) < d1 := by exact_mod_cast hd1
  have c2 : (0 : Int) < d2 := by exact_mod_cast hd2
  rcases le_or_lt 0 z1 with p1 | p1 <;> rcases le_or_lt 0 z2 with p2 | p2
  · obtain ⟨n1, rfl⟩ := Int.eq_ofNat_of_zero_le p1
    obtain ⟨n2, rfl⟩ := Int.eq_ofNat_of_zero_le p2
    rw [keyRound_nonneg, keyRound_nonneg]
    have h' : n1 * d2 ≤ n2 * d1 := by exact_mod_cast h
    have := roundNat_mono n1 d1 n2 d2 hd1 hd2 h'
    exact_mod_cast min_le_min_right _ this
  · exfalso
    have : z2 * d1 < 0 := mul_neg_of_neg_of_pos p2 c1
    have : 0 ≤ z1 * d2 := mul_nonneg p1 c2.le
    omega
  · obtain ⟨n1, hn1⟩ := Int.eq_ofNat_of_zero_le (show 0 ≤ -z1 by omega)
    obtain ⟨n2, rfl⟩ := Int.eq_ofNat_of_zero_le p2
    have e1 : z1 = -(n1 : Int) := by omega
    rw [e1, keyRound_neg, keyRound_nonneg]
    have a : (0 : Int) ≤ ((min (roundNat n1 d1) Binary64.huge : Nat) : Int) := Int.ofNat_nonneg _
    have b : (0 : Int) ≤ ((min (roundNat n2 d2) Binary64.huge : Nat) : Int) := Int.ofNat_nonneg _
    linarith
  · obtain ⟨n1, hn1⟩ := Int.eq_ofNat_of_zero_le (show 0 ≤ -z1 by omega)
    obtain ⟨n2, hn2⟩ := Int.eq_ofNat_of_zero_le (show 0 ≤ -z2 by omega)
    have e1 : z1 = -(n1 : Int) := by omega
    have e2 : z2 = -(n2 : Int) := by omega
    rw [e1, e2, keyRound_neg, keyRound_neg]
    have h' : n2 * d1 ≤ n1 * d2 := by
      have : (n2 : Int) * d1 ≤ n1 * d2 := by
        rw [e1, e2] at h
        linarith
      exact_mod_cast this
    have := roundNat_mono n2 d2 n1 d1 hd2 hd1 h'
    have : ((min (roundNat n2 d2) Binary64.huge : Nat) : Int) ≤
        ((min (roundNat n1 d1) Binary64.huge : Nat) : Int) := by
      exact_mod_cast min_le_min_right _ this
    linarith

theorem Binary64.key_fin (s : Bool) (k : Nat) :
    (Binary64.fin s k).key = if s then -(k : Int) else (k : Int) := by
  cases s <;> rfl

theorem Binary64.key_fin_false (k : Nat) : (Binary64.fin false k).key = (k : Int) := rfl

theorem Binary64.key_fin_true (k : Nat) : (Binary64.fin true k).key = -(k : Int) := rfl

theorem Binary64.key_mul_fin (s t : Bool) (a b : Nat) :
    (Binary64.fin s a * Binary64.fin t b).key =
      keyRound ((Binary64.fin s a).key * (Binary64.fin t b).key) Binary64.unit := by
  show (Binary64.round (xor s t) (a * b) Binary64.unit).key = _
  rw [Binary64.key_round]
  cases s <;> cases t <;> simp only [Binary64.key_fin_false, Binary64.key_fin_true,
    Bool.xor_false, Bool.xor_true, Bool.not_false, Bool.not_true, if_true, if_false,
    Bool.false_eq_true]
  · rw [← Int.natCast_mul, keyRound_nonneg]
  · rw [mul_neg, ← Int.natCast_mul, keyRound_neg]
  · rw [neg_mul, ← Int.natCast_mul, keyRound_neg]
  · rw [neg_mul_neg, ← Int.natCast_mul, keyRound_nonneg]

theorem Binary64.mul_fin_ne_nan (s t : Bool) (a b : Nat) :
    Binary64.fin s a * Binary64.fin t b ≠ Binary64.nan :=
  Binary64.round_ne_nan _ _ _

theorem Binary64.key_add_fin (s t : Bool) (a b : Nat) :
    (Binary64.fin s a + Binary64.fin t b).key =
      keyRound ((Binary64.fin s a).key + (Binary64.fin t b).key) 1 := by
  show (Binary64.add (Binary64.fin s a) (Binary64.fin t b)).key = _
  simp only [Binary64.add]
  cases s <;> cases t <;>
    simp only [Binary64.key_fin_false, Binary64.key_fin_true, if_true, Bool.false_eq_true,
      Bool.true_eq_false, if_false]
  · rw [Binary64.key_round, ← Int.natCast_add, keyRound_nonneg]
    simp
  · by_cases h1 : a = b
    · subst h1
      simp [Binary64.key, keyRound, roundNat_zero]
    · by_cases h2 : b < a
      · simp only [h1, h2, if_true, if_false, Binary64.key_round, Bool.false_eq_true]
        have e : (a : Int) + -(b : Int) = ((a - b : Nat) : Int) := by omega
        rw [e, keyRound_nonneg]
      · simp only [h1, h2, if_false, Binary64.key_round, if_true]
        have e : (a : Int) + -(b : Int) = -((b - a : Nat) : Int) := by omega
        rw [e, keyRound_neg]
  · by_cases h1 : a = b
    · subst h1
      simp [Binary64.key, keyRound, roundNat_zero]
    · by_cases h2 : b < a
      · simp only [h1, h2, if_true, if_false, Binary64.key_round]
        have e : -(a : Int) + (b : Int) = -((a - b : Nat) : Int) := by omega
        rw [e, keyRound_neg]
      · simp only [h1, h2, if_false, Binary64.key_round, Bool.false_eq_true]
        have e : -(a : Int) + (b : Int) = ((b - a : Nat) : Int) := by omega
        rw [e, keyRound_nonneg]
  · rw [Binary64.key_round]
    have e : -(a : Int) + -(b : Int) = -((a + b : Nat) : Int) := by omega
    rw [e, keyRound_neg]
    simp

theorem Binary64.add_fin_ne_nan (s t : Bool) (a b : Nat) :
    Binary64.fin s a + Binary64.fin t b ≠ Binary64.nan := by
  show Binary64.add (Binary64.fin s a) (Binary64.fin t b) ≠ _
  simp only [Binary64.add]
  split_ifs <;> first | exact Binary64.round_ne_nan _ _ _ | simp

theorem Binary64.sub_eq (x y : Binary64) : x - y = x + Binary64.neg y := rfl

theorem Binary64.key_neg_fin (s : Bool) (k : Nat) :
    (Binary64.neg (Binary64.fin s k)).key = -(Binary64.fin s k).key := by
  cases s <;> simp [Binary64.neg, Binary64.key]

theorem Binary64.key_sub_fin (s t : Bool) (a b : Nat) :
    (Binary64.fin s a - Binary64.fin t b).key =
      keyRound ((Binary64.fin s a).key - (Binary64.fin t b).key) 1 := by
  rw [Binary64.sub_eq]
  show (Binary64.fin s a + Binary64.fin (!t) b).key = _
  rw [Binary64.key_add_fin]
  have : (Binary64.fin (!t) b).key = -(Binary64.fin t b).key := Binary64.key_neg_fin t b
  rw [this, sub_eq_add_neg]

theorem Binary64.sub_fin_ne_nan (s t : Bool) (a b : Nat) :
    Binary64.fin s a - Binary64.fin t b ≠ Binary64.nan :=
  Binary64.add_fin_ne_nan s (!t) a b

theorem Binary64.key_div_fin (s : Bool) (a b : Nat) (hb : b ≠ 0) :
    (Binary64.fin s a / Binary64.fin false b).key =
      keyRound ((Binary64.fin s a).key * Binary64.unit) b := by
  show (Binary64.div (Binary64.fin s a) (Binary64.fin false b)).key = _
  simp only [Binary64.div, hb, if_false, Binary64.key_round, Bool.xor_false]
  cases s <;> simp only [Binary64.key_fin_false, Binary64.key_fin_true, if_true, if_false,
    Bool.false_eq_true]
  · rw [← Int.natCast_mul, keyRound_nonneg]
  · rw [neg_mul, ← Int.natCast_mul, keyRound_neg]

theorem Binary64.div_fin_ne_nan (s : Bool) (a b : Nat) (hb : b ≠ 0) :
    Binary64.fin s a / Binary64.fin false b ≠ Binary64.nan := by
  show Binary64.div (Binary64.fin s a) (Binary64.fin false b) ≠ _
  simp only [Binary64.div, hb, if_false]
  exact Binary64.round_ne_nan _ _ _

theorem Binary64.le_iff (x y : Binary64) :
    x ≤ y ↔ x ≠ Binary64.nan ∧ y ≠ Binary64.nan ∧ x.key ≤ y.key := Iff.rfl

theorem Binary64.lt_iff (x y : Binary64) :
    x < y ↔ x ≠ Binary64.nan ∧ y ≠ Binary64.nan ∧ x.key < y.key := Iff.rfl

theorem Binary64.le_trans {x y z : Binary64} (h1 : x ≤ y) (h2 : y ≤ z) : x ≤ z :=
  ⟨h1.1, h2.2.1, Int.le_trans h1.2.2 h2.2.2⟩

theorem Binary64.lt_of_le_of_lt {x y z : Binary64} (h1 : x ≤ y) (h2 : y < z) : x < z :=
  ⟨h1.1, h2.2.1, Int.lt_of_le_of_lt h1.2.2 h2.2.2⟩

theorem Binary64.lt_of_lt_of_le {x y z : Binary64} (h1 : x < y) (h2 : y ≤ z) : x < z :=
  ⟨h1.1, h2.2.1, Int.lt_of_lt_of_le h1.2.2 h2.2.2⟩

theorem Binary64.le_of_lt {x y : Binary64} (h : x < y) : x ≤ y :=
  ⟨h.1, h.2.1, Int.le_of_lt h.2.2⟩

theorem Binary64.isFinite_iff (x : Binary64) :
    x.isFinite = true ↔ ∃ s k, x = Binary64.fin s k ∧ k < Binary64.huge := by
  cases x with
  | nan => simp [Binary64.isFinite]
  | inf s => simp [Binary64.isFinite]
  | fin s k =>
    constructor
    · intro h
      exact ⟨s, k, rfl, by simpa [Binary64.isFinite] using h⟩
    · rintro ⟨s2, k2, e, hk⟩
      cases e
      simpa [Binary64.isFinite] using hk

theorem Binary64.key_lt_huge {x : Binary64} (h : x.isFinite = true) :
    x.key < Binary64.huge ∧ -(Binary64.huge : Int) < x.key := by
  obtain ⟨s, k, rfl, hk⟩ := (Binary64.isFinite_iff x).1 h
  have : (k : Int) < Binary64.huge := by exact_mod_cast hk
  cases s
  · rw [Binary64.key_fin_false]
    constructor <;> linarith [Int.ofNat_nonneg k]
  · rw [Binary64.key_fin_true]
    constructor <;> linarith [Int.ofNat_nonneg k]

/-- A value between two finite values is finite. -/
theorem Binary64.isFinite_of_between {lo x hi : Binary64} (h1 : lo ≤ x) (h2 : x ≤ hi)
    (hlo : lo.isFinite = true) (hhi : hi.isFinite = true) : x.isFinite = true := by
  have b1 := (Binary64.key_lt_huge hlo).2
  have b2 := (Binary64.key_lt_huge hhi).1
  have k1 := h1.2.2
  have k2 := h2.2.2
  rcases x with _ | s | ⟨s, k⟩
  · exact absurd rfl h1.2.1
  · cases s
    · have : (Binary64.inf false).key = Binary64.huge := rfl
      rw [this] at k2
      linarith
    · have : (Binary64.inf true).key = -(Binary64.huge : Int) := rfl
      rw [this] at k1
      linarith
  · have hk : (k : Int) < Binary64.huge := by
      cases s
      · rw [Binary64.key_fin_false] at k2
        linarith
      · rw [Binary64.key_fin_true] at k1
        linarith
    have hk2 : k < Binary64.huge := by exact_mod_cast hk
    simp [Binary64.isFinite, hk2]

theorem Binary64.mul_le_mul_left {c x y : Binary64} (hc : c.isFinite = true)
    (hx : x.isFinite = true) (hy : y.isFinite = true) (h0 : 0 ≤ c.key) (h : x ≤ y) :
    c * x ≤ c * y := by
  obtain ⟨sc, kc, rfl, -⟩ := (Binary64.isFinite_iff c).1 hc
  obtain ⟨sx, kx, rfl, -⟩ := (Binary64.isFinite_iff x).1 hx
  obtain ⟨sy, ky, rfl, -⟩ := (Binary64.isFinite_iff y).1 hy
  refine ⟨Binary64.mul_fin_ne_nan _ _ _ _, Binary64.mul_fin_ne_nan _ _ _ _, ?_⟩
  rw [Binary64.key_mul_fin, Binary64.key_mul_fin]
  apply keyRound_mono _ _ _ _ Binary64.unit_pos Binary64.unit_pos
  have := mul_le_mul_of_nonneg_left h.2.2 h0
  exact mul_le_mul_of_nonneg_right this (Int.ofNat_nonneg _)

theorem Binary64.mul_le_mul_left_of_nonpos {c x y : Binary64} (hc : c.isFinite = true)
    (hx : x.isFinite = true) (hy : y.isFinite = true) (h0 : c.key ≤ 0) (h : x ≤ y) :
    c * y ≤ c * x := by
  obtain ⟨sc, kc, rfl, -⟩ := (Binary64.isFinite_iff c).1 hc
  obtain ⟨sx, kx, rfl, -⟩ := (Binary64.isFinite_iff x).1 hx
  obtain ⟨sy, ky, rfl, -⟩ := (Binary64.isFinite_iff y).1 hy
  refine ⟨Binary64.mul_fin_ne_nan _ _ _ _, Binary64.mul_fin_ne_nan _ _ _ _, ?_⟩
  rw [Binary64.key_mul_fin, Binary64.key_mul_fin]
  apply keyRound_mono _ _ _ _ Binary64.unit_pos Binary64.unit_pos
  have := mul_le_mul_of_nonpos_left h.2.2 h0
  exact mul_le_mul_of_nonneg_right this (Int.ofNat_nonneg _)

theorem Binary64.mul_le_mul_right {c x y : Binary64} (hc : c.isFinite = true)
    (hx : x.isFinite = true) (hy : y.isFinite = true) (h0 : 0 ≤ c.key) (h : x ≤ y) :
    x * c ≤ y * c := by
  obtain ⟨sc, kc, rfl, -⟩ := (Binary64.isFinite_iff c).1 hc
  obtain ⟨sx, kx, rfl, -⟩ := (Binary64.isFinite_iff x).1 hx
  obtain ⟨sy, ky, rfl, -⟩ := (Binary64.isFinite_iff y).1 hy
  refine ⟨Binary64.mul_fin_ne_nan _ _ _ _, Binary64.mul_fin_ne_nan _ _ _ _, ?_⟩
  rw [Binary64.key_mul_fin, Binary64.key_mul_fin]
  apply keyRound_mono _ _ _ _ Binary64.unit_pos Binary64.unit_pos
  have := mul_le_mul_of_nonneg_right h.2.2 h0
  exact mul_le_mul_of_nonneg_right this (Int.ofNat_nonneg _)

theorem Binary64.add_le_add_left {c x y : Binary64} (hc : c.isFinite = true)
    (hx : x.isFinite = true) (hy : y.isFinite = true) (h : x ≤ y) : c + x ≤ c + y := by
  obtain ⟨sc, kc, rfl, -⟩ := (Binary64.isFinite_iff c).1 hc
  obtain ⟨sx, kx, rfl, -⟩ := (Binary64.isFinite_iff x).1 hx
  obtain ⟨sy, ky, rfl, -⟩ := (Binary64.isFinite_iff y).1 hy
  refine ⟨Binary64.add_fin_ne_nan _ _ _ _, Binary64.add_fin_ne_nan _ _ _ _, ?_⟩
  rw [Binary64.key_add_fin, Binary64.key_add_fin]
  apply keyRound_mono _ _ _ _ Nat.one_pos Nat.one_pos
  have := h.2.2
  simp only [Nat.cast_one, mul_one]
  linarith

theorem Binary64.add_le_add_right {c x y : Binary64} (hc : c.isFinite = true)
    (hx : x.isFinite = true) (hy : y.isFinite = true) (h : x ≤ y) : x + c ≤ y + c := by
  obtain ⟨sc, kc, rfl, -⟩ := (Binary64.isFinite_iff c).1 hc
  obtain ⟨sx, kx, rfl, -⟩ := (Binary64.isFinite_iff x).1 hx
  obtain ⟨sy, ky, rfl, -⟩ := (Binary64.isFinite_iff y).1 hy
  refine ⟨Binary64.add_fin_ne_nan _ _ _ _, Binary64.add_fin_ne_nan _ _ _ _, ?_⟩
  rw [Binary64.key_add_fin, Binary64.key_add_fin]
  apply keyRound_mono _ _ _ _ Nat.one_pos Nat.one_pos
  have := h.2.2
  simp only [Nat.cast_one, mul_one]
  linarith

theorem Binary64.sub_le_sub_right {c x y : Binary64} (hc : c.isFinite = true)
    (hx : x.isFinite = true) (hy : y.isFinite = true) (h : x ≤ y) : x - c ≤ y - c := by
  obtain ⟨sc, kc, rfl, -⟩ := (Binary64.isFinite_iff c).1 hc
  obtain ⟨sx, kx, rfl, -⟩ := (Binary64.isFinite_iff x).1 hx
  obtain ⟨sy, ky, rfl, -⟩ := (Binary64.isFinite_iff y).1 hy
  refine ⟨Binary64.sub_fin_ne_nan _ _ _ _, Binary64.sub_fin_ne_nan _ _ _ _, ?_⟩
  rw [Binary64.key_sub_fin, Binary64.key_sub_fin]
  apply keyRound_mono _ _ _ _ Nat.one_pos Nat.one_pos
  have := h.2.2
  simp only [Nat.cast_one, mul_one]
  linarith

theorem Binary64.div_le_div_right {x y : Binary64} (kc : Nat) (hc : kc ≠ 0)
    (hx : x.isFinite = true) (hy : y.isFinite = true) (h : x ≤ y) :
    x / Binary64.fin false kc ≤ y / Binary64.fin false kc := by
  obtain ⟨sx, kx, rfl, -⟩ := (Binary64.isFinite_iff x).1 hx
  obtain ⟨sy, ky, rfl, -⟩ := (Binary64.isFinite_iff y).1 hy
  refine ⟨Binary64.div_fin_ne_nan _ _ _ hc, Binary64.div_fin_ne_nan _ _ _ hc, ?_⟩
  rw [Binary64.key_div_fin _ _ _ hc, Binary64.key_div_fin _ _ _ hc]
  apply keyRound_mono _ _ _ _ (Nat.pos_of_ne_zero hc) (Nat.pos_of_ne_zero hc)
  have := mul_le_mul_of_nonneg_right h.2.2 (Int.ofNat_nonneg Binary64.unit)
  exact mul_le_mul_of_nonneg_right this (Int.ofNat_nonneg _)

theorem keyRound_zero (d : Nat) : keyRound 0 d = 0 := by
  simp [keyRound, roundNat_zero]

theorem keyRound_exact (k d : Nat) (hd : 0 < d) (hk : k < Binary64.huge)
    (hr : k % 2 ^ (ilog2 k - 52) = 0) : keyRound ((k : Int) * d) d = k := by
  rw [← Int.natCast_mul, keyRound_nonneg, roundNat_exact k d hd (Nat.dvd_of_mod_eq_zero hr),
    Nat.min_eq_left (Nat.le_of_lt hk)]

theorem Binary64.isFloat_fin {s : Bool} {k : Nat} (h : (Binary64.fin s k).isFloat = true) :
    k < Binary64.huge ∧ k % 2 ^ (ilog2 k - 52) = 0 := by
  simpa [Binary64.isFloat] using h

theorem le_pred_of_representable (k : Nat) (h1 : k < 2 ^ 1074)
    (hr : k % 2 ^ (ilog2 k - 52) = 0) : k ≤ 2 ^ 1074 - 2 ^ 1021 := by
  have e74 : (2 : Nat) ^ 1074 = 9007199254740992 * 2 ^ 1021 := by
    rw [show (9007199254740992 : Nat) = 2 ^ 53 by norm_num, ← pow_add]
  have e73 : (2 : Nat) ^ 1073 = 4503599627370496 * 2 ^ 1021 := by
    rw [show (4503599627370496 : Nat) = 2 ^ 52 by norm_num, ← pow_add]
  have hA : 0 < (2 : Nat) ^ 1021 := Nat.two_pow_pos _
  by_cases hlt : k < 2 ^ 1073
  · rw [e74]
    rw [e73] at hlt
    generalize (2 : Nat) ^ 1021 = A at hlt hA ⊢
    omega
  · have hge : 2 ^ 1073 ≤ k := Nat.le_of_not_lt hlt
    have hlog : Nat.log 2 k = 1073 := Nat.log_eq_of_pow_le_of_lt_pow hge h1
    rw [ilog2_eq, hlog, show 1073 - 52 = 1021 by rfl] at hr
    obtain ⟨j, hj⟩ := Nat.dvd_of_mod_eq_zero hr
    rw [e74] at h1 ⊢
    rw [hj] at h1 ⊢
    generalize (2 : Nat) ^ 1021 = A at h1 hA ⊢
    have hjlt : j < 9007199254740992 := by
      by_contra hc
      have : 9007199254740992 * A ≤ A * j := by
        calc 9007199254740992 * A = A * 9007199254740992 := by ring
          _ ≤ A * j := Nat.mul_le_mul_left _ (Nat.le_of_not_lt hc)
      omega
    have : A * j ≤ A * 9007199254740991 := Nat.mul_le_mul_left _ (by omega)
    omega

theorem Binary64.le_predOne {x : Binary64} (hf : x.isFloat = true) (h : x < 1) :
    x ≤ Binary64.predOne := by
  have hone : (1 : Binary64).key = ((2 ^ 1074 : Nat) : Int) := by decide!
  have hk := h.2.2
  rw [hone] at hk
  refine ⟨h.1, by decide, ?_⟩
  show x.key ≤ ((2 ^ 1074 - 2 ^ 1021 : Nat) : Int)
  rcases x with _ | s | ⟨s, k⟩
  · exact absurd rfl h.1
  · cases s
    · exfalso
      have : (Binary64.inf false).key = ((2 ^ 2098 : Nat) : Int) := by decide!
      rw [this] at hk
      have : (2 : Nat) ^ 1074 ≤ 2 ^ 2098 := Nat.pow_le_pow_right (by norm_num) (by norm_num)
      have : ((2 ^ 1074 : Nat) : Int) ≤ ((2 ^ 2098 : Nat) : Int) := by exact_mod_cast this
      linarith
    · have : (Binary64.inf true).key ≤ 0 := by decide!
      have : (0 : Int) ≤ ((2 ^ 1074 - 2 ^ 1021 : Nat) : Int) := Int.ofNat_nonneg _
      linarith
  · cases s
    · rw [Binary64.key_fin_false] at hk ⊢
      have hk' : k < 2 ^ 1074 := by exact_mod_cast hk
      exact_mod_cast le_pred_of_representable k hk' (Binary64.isFloat_fin hf).2
    · rw [Binary64.key_fin_true]
      have : (0 : Int) ≤ ((2 ^ 1074 - 2 ^ 1021 : Nat) : Int) := Int.ofNat_nonneg _
      linarith [Int.ofNat_nonneg k]

/-- The float64 projection from the candle 100, 110: the change rate is 0.1 and,
for a multiplier in `[0.1, 0.9)`, the projected price is in `(121, 130.9]`. -/
theorem projected_price_binary64 (draw : Binary64)
    (hm0 : 0.1 ≤ draw * 0.8 + 0.1) (hm1 : draw * 0.8 + 0.1 < 0.9) :
    ((110 : Binary64) - 100) / 100 = 0.1 ∧
    121 < 110 + 110 * multiplyChangeRate draw 0.1 ∧
    110 + 110 * multiplyChangeRate draw 0.1 ≤ 130.9 := by
  refine ⟨by decide!, ?_⟩
  show (121 : Binary64) < 110 + 110 * (0.1 * (draw * 0.8 + 0.1) + 0.1) ∧
    (110 : Binary64) + 110 * (0.1 * (draw * 0.8 + 0.1) + 0.1) ≤ 130.9
  generalize draw * 0.8 + 0.1 = m at hm0 hm1
  have hm2 := Binary64.le_of_lt hm1
  have fm : m.isFinite = true := Binary64.isFinite_of_between hm0 hm2 (by decide!) (by decide!)
  have f01 : (0.1 : Binary64).isFinite = true := by decide!
  have f09 : (0.9 : Binary64).isFinite = true := by decide!
  have f110 : (110 : Binary64).isFinite = true := by decide!
  have k01 : 0 ≤ (0.1 : Binary64).key := by decide!
  have k110 : 0 ≤ (110 : Binary64).key := by decide!
  -- 0.1 * m
  have a1 := Binary64.mul_le_mul_left f01 f01 fm k01 hm0
  have a2 := Binary64.mul_le_mul_left f01 fm f09 k01 hm2
  have fa : ((0.1 : Binary64) * m).isFinite = true :=
    Binary64.isFinite_of_between a1 a2 (by decide!) (by decide!)
  -- 0.1 * m + 0.1
  have b1 := Binary64.add_le_add_right f01 (by decide!) fa a1
  have b2 := Binary64.add_le_add_right f01 fa (by decide!) a2
  have fb : ((0.1 : Binary64) * m + 0.1).isFinite = true :=
    Binary64.isFinite_of_between b1 b2 (by decide!) (by decide!)
  -- 110 * (0.1 * m + 0.1)
  have c1 := Binary64.mul_le_mul_left f110 (by decide!) fb k110 b1
  have c2 := Binary64.mul_le_mul_left f110 fb (by decide!) k110 b2
  have fc : ((110 : Binary64) * (0.1 * m + 0.1)).isFinite = true :=
    Binary64.isFinite_of_between c1 c2 (by decide!) (by decide!)
  -- 110 + 110 * (0.1 * m + 0.1)
  have d1 := Binary64.add_le_add_left f110 (by decide!) fc c1
  have d2 := Binary64.add_le_add_left f110 fc (by decide!) c2
  exact ⟨Binary64.lt_of_lt_of_le (by decide!) d1, Binary64.le_trans d2 (by decide!)⟩

theorem Binary64.isFinite_of_isFloat_fin {s : Bool} {k : Nat}
    (h : (Binary64.fin s k).isFloat = true) : (Binary64.fin s k).isFinite = true := by
  have := (Binary64.isFloat_fin h).1
  simp [Binary64.isFinite, this]

/-- The float64 multiplier of a draw in `[0, 1)` lies in `[0.1, 0.9)`. -/
theorem multiplier_range (draw : Binary64) (hf : draw.isFloat = true) (h0 : 0 ≤ draw)
    (h1 : draw < 1) :
    (0.1 : Binary64) ≤ draw * 0.8 + 0.1 ∧ draw * 0.8 + 0.1 < (0.9 : Binary64) := by
  have hp := Binary64.le_predOne hf h1
  have fd : draw.isFinite = true :=
    Binary64.isFinite_of_between h0 hp (by decide!) (by decide!)
  have f08 : (0.8 : Binary64).isFinite = true := by decide!
  have f01 : (0.1 : Binary64).isFinite = true := by decide!
  have k08 : 0 ≤ (0.8 : Binary64).key := by decide!
  have a1 := Binary64.mul_le_mul_right f08 (by decide!) fd k08 h0
  have a2 := Binary64.mul_le_mul_right f08 fd (by decide!) k08 hp
  have fa : (draw * 0.8).isFinite = true :=
    Binary64.isFinite_of_between a1 a2 (by decide!) (by decide!)
  have b1 := Binary64.add_le_add_right f01 (by decide!) fa a1
  have b2 := Binary64.add_le_add_right f01 fa (by decide!) a2
  exact ⟨Binary64.le_trans (by decide!) b1, Binary64.lt_of_le_of_lt b2 (by decide!)⟩

/-- The float64 result of `multiplyChangeRate` lies between the change rate and
twice the change rate, ends included. -/
theorem multiplyChangeRate_inclusive (draw changeRate : Binary64) (hd : draw.isFloat = true)
    (hc : changeRate.isFloat = true) (h0 : 0 ≤ draw) (h1 : draw < 1) (hpos : 0 < changeRate) :
    (0.1 ≤ draw * 0.8 + 0.1 ∧ draw * 0.8 + 0.1 < 0.9) ∧
    multiplyChangeRate draw changeRate = changeRate * (draw * 0.8 + 0.1) + changeRate ∧
    changeRate ≤ multiplyChangeRate draw changeRate ∧
    multiplyChangeRate draw changeRate ≤ 2 * changeRate := by
  have hm := multiplier_range draw hd h0 h1
  refine ⟨hm, rfl, ?_⟩
  show changeRate ≤ changeRate * (draw * 0.8 + 0.1) + changeRate ∧
    changeRate * (draw * 0.8 + 0.1) + changeRate ≤ 2 * changeRate
  obtain ⟨hm0, hm1⟩ := hm
  generalize draw * 0.8 + 0.1 = m at hm0 hm1
  have hm2 := Binary64.le_of_lt hm1
  have fm : m.isFinite = true := Binary64.isFinite_of_between hm0 hm2 (by decide!) (by decide!)
  obtain ⟨sm, km, rfl, hkm⟩ := (Binary64.isFinite_iff m).1 fm
  have hmpos : (0 : Int) < (Binary64.fin sm km).key :=
    lt_of_lt_of_le (by decide!) hm0.2.2
  have hmle : (Binary64.fin sm km).key ≤ (Binary64.unit : Int) :=
    le_trans hm2.2.2 (by decide!)
  have two : (2 : Binary64) = Binary64.fin false (2 * 2 ^ 1074) := by decide!
  have zero : (0 : Binary64).key = 0 := by decide!
  have hcpos : (0 : Int) < changeRate.key := by
    have := hpos.2.2
    rwa [zero] at this
  rcases changeRate with _ | s | ⟨s, k⟩
  · exact absurd rfl hpos.2.1
  · cases s
    · cases sm
      · have hk0 : km ≠ 0 := by
          rintro rfl
          simp [Binary64.key] at hmpos
        have e : Binary64.inf false * Binary64.fin false km + Binary64.inf false =
            Binary64.inf false := by
          show Binary64.add (Binary64.mul (Binary64.inf false) (Binary64.fin false km))
            (Binary64.inf false) = _
          simp [Binary64.mul, Binary64.add, hk0]
        have e2 : (2 : Binary64) * Binary64.inf false = Binary64.inf false := by
          rw [two]
          decide!
        rw [e, e2]
        exact ⟨by decide!, by decide!⟩
      · exfalso
        rw [Binary64.key_fin_true] at hmpos
        linarith [Int.ofNat_nonneg km]
    · exfalso
      have : (Binary64.inf true).key ≤ 0 := by decide!
      linarith
  · cases s
    swap
    · exfalso
      rw [Binary64.key_fin_true] at hcpos
      linarith [Int.ofNat_nonneg k]
    obtain ⟨hk, hr⟩ := Binary64.isFloat_fin hc
    have fc : (Binary64.fin false k).isFinite = true := Binary64.isFinite_of_isFloat_fin hc
    have kc : (Binary64.fin false k).key = (k : Int) := rfl
    -- the product changeRate * m
    have ka : (Binary64.fin false k * Binary64.fin sm km).key =
        keyRound ((k : Int) * (Binary64.fin sm km).key) Binary64.unit := by
      rw [Binary64.key_mul_fin, kc]
    have ka0 : 0 ≤ (Binary64.fin false k * Binary64.fin sm km).key := by
      rw [ka, ← keyRound_zero Binary64.unit]
      apply keyRound_mono _ _ _ _ Binary64.unit_pos Binary64.unit_pos
      have : (0 : Int) ≤ (k : Int) * (Binary64.fin sm km).key :=
        mul_nonneg (Int.ofNat_nonneg k) hmpos.le
      have u : (0 : Int) ≤ (Binary64.unit : Int) := Int.ofNat_nonneg _
      nlinarith
    have ka1 : (Binary64.fin false k * Binary64.fin sm km).key ≤ (k : Int) := by
      rw [ka]
      conv_rhs => rw [← keyRound_exact k Binary64.unit Binary64.unit_pos hk hr]
      apply keyRound_mono _ _ _ _ Binary64.unit_pos Binary64.unit_pos
      have u : (0 : Int) ≤ (Binary64.unit : Int) := Int.ofNat_nonneg _
      have : (k : Int) * (Binary64.fin sm km).key ≤ (k : Int) * Binary64.unit :=
        mul_le_mul_of_nonneg_left hmle (Int.ofNat_nonneg k)
      exact mul_le_mul_of_nonneg_right this u
    have na : Binary64.fin false k * Binary64.fin sm km ≠ Binary64.nan :=
      Binary64.mul_fin_ne_nan _ _ _ _
    have fa : (Binary64.fin false k * Binary64.fin sm km).isFinite = true := by
      have l1 : (0 : Binary64) ≤ Binary64.fin false k * Binary64.fin sm km :=
        ⟨by decide!, na, by rw [zero]; exact ka0⟩
      have l2 : Binary64.fin false k * Binary64.fin sm km ≤ Binary64.fin false k :=
        ⟨na, by simp, by rw [kc]; exact ka1⟩
      exact Binary64.isFinite_of_between l1 l2 (by decide!) fc
    obtain ⟨sa, a, ea, -⟩ := (Binary64.isFinite_iff _).1 fa
    rw [ea] at ka0 ka1 ⊢
    rw [two]
    have ns : Binary64.fin sa a + Binary64.fin false k ≠ Binary64.nan :=
      Binary64.add_fin_ne_nan _ _ _ _
    have n2 : Binary64.fin false (2 * 2 ^ 1074) * Binary64.fin false k ≠ Binary64.nan :=
      Binary64.mul_fin_ne_nan _ _ _ _
    refine ⟨⟨by simp, ns, ?_⟩, ⟨ns, n2, ?_⟩⟩
    · rw [Binary64.key_add_fin, kc]
      have e := keyRound_exact k 1 Nat.one_pos hk hr
      rw [Nat.cast_one, mul_one] at e
      conv_lhs => rw [← e]
      apply keyRound_mono _ _ _ _ Nat.one_pos Nat.one_pos
      simp only [Nat.cast_one, mul_one]
      linarith
    · rw [Binary64.key_add_fin, Binary64.key_mul_fin, kc]
      apply keyRound_mono _ _ _ _ Nat.one_pos Binary64.unit_pos
      have e2 : (Binary64.fin false (2 * 2 ^ 1074)).key = 2 * (Binary64.unit : Int) := by
        rw [Binary64.key_fin_false]
        unfold Binary64.unit
        push_cast
        ring
      rw [e2]
      have u : (0 : Int) ≤ (Binary64.unit : Int) := Int.ofNat_nonneg _
      simp only [Nat.cast_one, mul_one]
      nlinarith

theorem Binary64.neg_round (s : Bool) (n d : Nat) :
    Binary64.neg (Binary64.round s n d) = Binary64.round (!s) n d := by
  unfold Binary64.round
  split_ifs <;> rfl

theorem Binary64.mul_neg_fin (s t : Bool) (a b : Nat) :
    Binary64.fin s a * Binary64.neg (Binary64.fin t b) =
      Binary64.neg (Binary64.fin s a * Binary64.fin t b) := by
  show Binary64.round (xor s (!t)) (a * b) Binary64.unit =
    Binary64.neg (Binary64.round (xor s t) (a * b) Binary64.unit)
  rw [Binary64.neg_round]
  cases s <;> cases t <;> rfl

theorem Binary64.isFinite_mul_of_le_one {p y : Binary64} (hp : p.isFloat = true)
    (hpf : p.isFinite = true) (hy : y.isFinite = true)
    (h1 : -(Binary64.unit : Int) ≤ y.key) (h2 : y.key ≤ (Binary64.unit : Int)) :
    (p * y).isFinite = true := by
  obtain ⟨sp, kp, rfl, -⟩ := (Binary64.isFinite_iff p).1 hpf
  obtain ⟨sy, ky, rfl, -⟩ := (Binary64.isFinite_iff y).1 hy
  obtain ⟨hk, hr⟩ := Binary64.isFloat_fin hp
  have hky : ky ≤ Binary64.unit := by
    cases sy
    · rw [Binary64.key_fin_false] at h2
      exact_mod_cast h2
    · rw [Binary64.key_fin_true] at h1
      have : (ky : Int) ≤ Binary64.unit := by linarith
      exact_mod_cast this
  have hle : roundNat (kp * ky) Binary64.unit ≤ kp := by
    have := roundNat_mono (kp * ky) Binary64.unit (kp * Binary64.unit) Binary64.unit
      Binary64.unit_pos Binary64.unit_pos
      (Nat.mul_le_mul_right _ (Nat.mul_le_mul_left _ hky))
    rwa [roundNat_exact kp Binary64.unit Binary64.unit_pos (Nat.dvd_of_mod_eq_zero hr)] at this
  have hlt : roundNat (kp * ky) Binary64.unit < Binary64.huge := Nat.lt_of_le_of_lt hle hk
  show (Binary64.round (xor sp sy) (kp * ky) Binary64.unit).isFinite = true
  unfold Binary64.round
  simp [hlt, Binary64.isFinite]

/-- The float64 value `(U * 6 - 3) / 100` of a draw in `[0, 1)` is finite and lies
in `[-0.03, 0.03]`. -/
theorem random_percent_range (draw : Binary64) (h0 : 0 ≤ draw) (h1 : draw < 1) :
    ((draw * 6 - 3) / 100).isFinite = true ∧
    Binary64.neg 0.03 ≤ (draw * 6 - 3) / 100 ∧ (draw * 6 - 3) / 100 ≤ 0.03 := by
  have h1' := Binary64.le_of_lt h1
  have fd : draw.isFinite = true :=
    Binary64.isFinite_of_between h0 h1' (by decide!) (by decide!)
  have f6 : (6 : Binary64).isFinite = true := by decide!
  have f3 : (3 : Binary64).isFinite = true := by decide!
  have k6 : 0 ≤ (6 : Binary64).key := by decide!
  have hundred : (100 : Binary64) = Binary64.fin false (100 * 2 ^ 1074) := by decide!
  have h100 : 100 * 2 ^ 1074 ≠ 0 := by positivity
  have a1 := Binary64.mul_le_mul_right f6 (by decide!) fd k6 h0
  have a2 := Binary64.mul_le_mul_right f6 fd (by decide!) k6 h1'
  have fa : (draw * 6).isFinite = true :=
    Binary64.isFinite_of_between a1 a2 (by decide!) (by decide!)
  have b1 := Binary64.sub_le_sub_right f3 (by decide!) fa a1
  have b2 := Binary64.sub_le_sub_right f3 fa (by decide!) a2
  have fb : (draw * 6 - 3).isFinite = true :=
    Binary64.isFinite_of_between b1 b2 (by decide!) (by decide!)
  have c1 := Binary64.div_le_div_right (100 * 2 ^ 1074) h100 (by decide!) fb b1
  have c2 := Binary64.div_le_div_right (100 * 2 ^ 1074) h100 fb (by decide!) b2
  rw [← hundred] at c1 c2
  have fc : ((draw * 6 - 3) / 100).isFinite = true :=
    Binary64.isFinite_of_between c1 c2 (by decide!) (by decide!)
  exact ⟨fc, Binary64.le_trans (by decide!) c1, Binary64.le_trans c2 (by decide!)⟩

theorem Binary64.huge_pos : 0 < Binary64.huge := by
  unfold Binary64.huge
  positivity

theorem Binary64.round_zero (s : Bool) (d : Nat) :
    Binary64.round s 0 d = Binary64.fin s 0 := by
  unfold Binary64.round
  simp [roundNat_zero, Binary64.huge_pos]

theorem random_zero (draw : Binary64) (h0 : 0 ≤ draw) (h1 : draw < 1) :
    random draw (0 : Binary64) = 0 := by
  obtain ⟨fx, -, -⟩ := random_percent_range draw h0 h1
  show (0 : Binary64) + 0 * ((draw * 6 - 3) / 100) = 0
  obtain ⟨sx, kx, ex, -⟩ := (Binary64.isFinite_iff _).1 fx
  have zero : (0 : Binary64) = Binary64.fin false 0 := by decide!
  rw [ex, zero]
  show Binary64.add (Binary64.fin false 0)
    (Binary64.round (xor false sx) (0 * kx) Binary64.unit) = _
  rw [Nat.zero_mul, Binary64.round_zero]
  cases sx <;> simp [Binary64.add, Binary64.round_zero]

/-- The float64 sum `p + p * x` for `x` in `[-0.03, 0.03]` lies between
`p - p * 0.03` and `p + p * 0.03`. -/
theorem random_sandwich (price x : Binary64) (hp : price.isFloat = true)
    (hf : price.isFinite = true) (fx : x.isFinite = true) (lo : Binary64.neg 0.03 ≤ x)
    (hi : x ≤ 0.03) :
    (0 ≤ price →
      price - price * 0.03 ≤ price + price * x ∧ price + price * x ≤ price + price * 0.03) ∧
    (price ≤ 0 →
      price + price * 0.03 ≤ price + price * x ∧ price + price * x ≤ price - price * 0.03) := by
  have f3 : (0.03 : Binary64).isFinite = true := by decide!
  have fn : (Binary64.neg 0.03).isFinite = true := by decide!
  have u1 : -(Binary64.unit : Int) ≤ (Binary64.neg 0.03).key := by decide!
  have u2 : (Binary64.neg 0.03).key ≤ (Binary64.unit : Int) := by decide!
  have u3 : -(Binary64.unit : Int) ≤ (0.03 : Binary64).key := by decide!
  have u4 : (0.03 : Binary64).key ≤ (Binary64.unit : Int) := by decide!
  have zero : (0 : Binary64).key = 0 := by decide!
  have g3 := Binary64.isFinite_mul_of_le_one hp hf f3 u3 u4
  have gn := Binary64.isFinite_mul_of_le_one hp hf fn u1 u2
  have gx := Binary64.isFinite_mul_of_le_one hp hf fx (le_trans u1 lo.2.2) (le_trans hi.2.2 u4)
  have e : price - price * 0.03 = price + price * Binary64.neg 0.03 := by
    obtain ⟨sp, kp, rfl, -⟩ := (Binary64.isFinite_iff price).1 hf
    obtain ⟨s3, k3, e3, -⟩ := (Binary64.isFinite_iff _).1 f3
    rw [e3, Binary64.mul_neg_fin]
    rfl
  rw [e]
  constructor
  · intro h
    have hk : 0 ≤ price.key := by
      have := h.2.2
      rwa [zero] at this
    exact ⟨Binary64.add_le_add_left hf gn gx (Binary64.mul_le_mul_left hf fn fx hk lo),
      Binary64.add_le_add_left hf gx g3 (Binary64.mul_le_mul_left hf fx f3 hk hi)⟩
  · intro h
    have hk : price.key ≤ 0 := by
      have := h.2.2
      rwa [zero] at this
    exact ⟨Binary64.add_le_add_left hf g3 gx (Binary64.mul_le_mul_left_of_nonpos hf fx f3 hk hi),
      Binary64.add_le_add_left hf gx gn (Binary64.mul_le_mul_left_of_nonpos hf fn fx hk lo)⟩

theorem representable_of_dvd (n s : Nat) (h1 : 2 ^ s ∣ n) (h2 : n < 2 ^ (s + 53)) :
    2 ^ (ilog2 n - 52) ∣ n := by
  refine dvd_trans (Nat.pow_dvd_pow 2 ?_) h1
  rw [ilog2_eq]
  by_cases hn : n = 0
  · subst hn
    simp
  · have : Nat.log 2 n < s + 53 := Nat.log_lt_of_lt_pow hn h2
    omega

theorem strict_core (k km u : Nat) (hu : 0 < u) (hr : 2 ^ (ilog2 k - 52) ∣ k)
    (h52 : 2 ^ 52 ≤ k) (hlo : u ≤ 16 * km) (hhi : 16 * km ≤ 15 * u) :
    roundNat (k * km) u ≤ k ∧ k < roundNat (roundNat (k * km) u + k) 1 ∧
    roundNat (roundNat (k * km) u + k) 1 < 2 * k := by
  have hk0 : k ≠ 0 := by
    have : 0 < 2 ^ 52 := by norm_num
    omega
  have hlog : 52 ≤ Nat.log 2 k := Nat.le_log_of_pow_le (by norm_num) h52
  obtain ⟨s, hs⟩ : ∃ s, ilog2 k - 52 = s := ⟨_, rfl⟩
  have hse : Nat.log 2 k = s + 52 := by
    rw [ilog2_eq] at hs
    omega
  have hlow : 2 ^ (s + 52) ≤ k := by
    rw [← hse]
    exact Nat.pow_log_le_self 2 hk0
  have hupp : k < 2 ^ (s + 53) := by
    have := lt_pow_shift k
    rw [hs] at this
    rwa [Nat.add_comm] at this
  rw [hs] at hr
  have e52 : (2 : Nat) ^ (s + 52) = 4503599627370496 * 2 ^ s := by
    rw [pow_add]; ring
  have e53 : (2 : Nat) ^ (s + 53) = 9007199254740992 * 2 ^ s := by
    rw [pow_add]; ring
  have e54 : (2 : Nat) ^ (s + 1 + 53) = 18014398509481984 * 2 ^ s := by
    rw [pow_add, pow_add]; ring
  have e1 : (2 : Nat) ^ (s + 1) = 2 * 2 ^ s := by
    rw [pow_add]; ring
  have hP : 0 < 2 ^ s := Nat.two_pow_pos s
  have r1 : ∀ n, 2 ^ s ∣ n → n < 9007199254740992 * 2 ^ s → 2 ^ (ilog2 n - 52) ∣ n := by
    intro n h1 h2
    exact representable_of_dvd n s h1 (by rw [e53]; exact h2)
  have r2 : ∀ n, 2 * 2 ^ s ∣ n → n < 18014398509481984 * 2 ^ s → 2 ^ (ilog2 n - 52) ∣ n := by
    intro n h1 h2
    exact representable_of_dvd n (s + 1) (by rw [e1]; exact h1) (by rw [e54]; exact h2)
  obtain ⟨j, hj⟩ := hr
  rw [e52] at hlow
  rw [e53] at hupp
  generalize (2 : Nat) ^ s = P at hP r1 r2 hj hlow hupp
  have hj2 : 4503599627370496 ≤ j := by
    by_contra hc
    have : P * j ≤ P * 4503599627370495 := Nat.mul_le_mul_left _ (by omega)
    omega
  have hj3 : j < 9007199254740992 := by
    by_contra hc
    have : P * 9007199254740992 ≤ P * j := Nat.mul_le_mul_left _ (by omega)
    omega
  -- the product
  have b1 : P * u ≤ k * km := by
    have : 16 * P * u ≤ k * (16 * km) := by
      calc 16 * P * u ≤ k * u := Nat.mul_le_mul_right _ (by omega)
        _ ≤ k * (16 * km) := Nat.mul_le_mul_left _ hlo
    nlinarith
  have b2 : k * km ≤ (k - 2 * P) * u := by
    have h32 : 32 * P ≤ k := by omega
    have : 16 * (k * km) ≤ 16 * ((k - 2 * P) * u) := by
      calc 16 * (k * km) = k * (16 * km) := by ring
        _ ≤ k * (15 * u) := Nat.mul_le_mul_left _ hhi
        _ = (15 * k) * u := by ring
        _ ≤ (16 * (k - 2 * P)) * u := Nat.mul_le_mul_right _ (by omega)
        _ = 16 * ((k - 2 * P) * u) := by ring
    omega
  have a1 : P ≤ roundNat (k * km) u := by
    have := roundNat_mono (P * u) u (k * km) u hu hu (Nat.mul_le_mul_right _ b1)
    rwa [roundNat_exact P u hu (r1 P (dvd_refl P) (by omega))] at this
  have a2 : roundNat (k * km) u ≤ k - 2 * P := by
    have := roundNat_mono (k * km) u ((k - 2 * P) * u) u hu hu (Nat.mul_le_mul_right _ b2)
    have d : P ∣ k - 2 * P := ⟨j - 2, by rw [hj, Nat.mul_sub]; ring_nf⟩
    rwa [roundNat_exact (k - 2 * P) u hu (r1 _ d (by omega))] at this
  generalize roundNat (k * km) u = a at a1 a2
  have c1 : k + P ≤ roundNat (a + k) 1 := by
    have := roundNat_mono ((k + P) * 1) 1 (a + k) 1 Nat.one_pos Nat.one_pos (by omega)
    have rep : 2 ^ (ilog2 (k + P) - 52) ∣ k + P := by
      by_cases hlt : k + P < 9007199254740992 * P
      · exact r1 _ ⟨j + 1, by rw [hj]; ring⟩ hlt
      · have e : k + P = 2 * P * 4503599627370496 := by
          have : P * (j + 1) ≤ P * 9007199254740992 := Nat.mul_le_mul_left _ (by omega)
          have : k + P = P * (j + 1) := by rw [hj]; ring
          omega
        exact r2 _ ⟨4503599627370496, e⟩ (by omega)
    rwa [roundNat_exact (k + P) 1 Nat.one_pos rep] at this
  have c2 : roundNat (a + k) 1 ≤ 2 * k - 2 * P := by
    have := roundNat_mono (a + k) 1 ((2 * k - 2 * P) * 1) 1 Nat.one_pos Nat.one_pos (by omega)
    have d : 2 * P ∣ 2 * k - 2 * P := ⟨j - 1, by rw [hj, Nat.mul_sub]; ring_nf⟩
    rwa [roundNat_exact (2 * k - 2 * P) 1 Nat.one_pos (r2 _ d (by omega))] at this
  refine ⟨by omega, by omega, by omega⟩

theorem representable_double (k : Nat) (hr : 2 ^ (ilog2 k - 52) ∣ k) :
    2 ^ (ilog2 (2 * k) - 52) ∣ 2 * k := by
  apply representable_of_dvd (2 * k) (ilog2 k - 52 + 1)
  · rw [pow_succ, Nat.mul_comm]
    exact Nat.mul_dvd_mul_left 2 hr
  · have := lt_pow_shift k
    calc 2 * k < 2 * 2 ^ (53 + (ilog2 k - 52)) := by omega
      _ = 2 ^ (ilog2 k - 52 + 1 + 53) := by rw [← pow_succ']; congr 1; omega

theorem Binary64.round_eq_fin (s : Bool) (n d : Nat) (h : roundNat n d < Binary64.huge) :
    Binary64.round s n d = Binary64.fin s (roundNat n d) := by
  unfold Binary64.round
  simp [h]

/-- The float64 result of `multiplyChangeRate` lies strictly between the change
rate and twice the change rate when the change rate is normal and its double
is finite. -/
theorem multiplyChangeRate_strict (draw changeRate : Binary64) (hd : draw.isFloat = true)
    (hc : changeRate.isFloat = true) (h0 : 0 ≤ draw) (h1 : draw < 1)
    (hn : 2.2250738585072014e-308 ≤ changeRate) (h2 : (2 * changeRate).isFinite = true) :
    changeRate < multiplyChangeRate draw changeRate ∧
    multiplyChangeRate draw changeRate < 2 * changeRate := by
  obtain ⟨hm0, hm1⟩ := multiplier_range draw hd h0 h1
  show changeRate < changeRate * (draw * 0.8 + 0.1) + changeRate ∧
    changeRate * (draw * 0.8 + 0.1) + changeRate < 2 * changeRate
  generalize draw * 0.8 + 0.1 = m at hm0 hm1
  have fm : m.isFinite = true :=
    Binary64.isFinite_of_between hm0 (Binary64.le_of_lt hm1) (by decide!) (by decide!)
  obtain ⟨sm, km, rfl, -⟩ := (Binary64.isFinite_iff m).1 fm
  have q1 : (Binary64.unit : Int) ≤ 16 * (0.1 : Binary64).key := by decide!
  have q2 : 16 * (0.9 : Binary64).key ≤ 15 * (Binary64.unit : Int) := by decide!
  have q3 : (2.2250738585072014e-308 : Binary64).key = ((2 ^ 52 : Nat) : Int) := by decide!
  have two : (2 : Binary64) = Binary64.fin false (2 * 2 ^ 1074) := by decide!
  have hmk0 := hm0.2.2
  have hmk1 := hm1.2.2
  have hnk := hn.2.2
  rw [q3] at hnk
  cases sm
  swap
  · exfalso
    rw [Binary64.key_fin_true] at hmk0
    have : (0 : Int) < (Binary64.unit : Int) := by exact_mod_cast Binary64.unit_pos
    linarith [Int.ofNat_nonneg km]
  rw [Binary64.key_fin_false] at hmk0 hmk1
  have hlo : Binary64.unit ≤ 16 * km := by
    have : (Binary64.unit : Int) ≤ 16 * (km : Int) := by linarith
    exact_mod_cast this
  have hhi : 16 * km ≤ 15 * Binary64.unit := by
    have : 16 * (km : Int) ≤ 15 * (Binary64.unit : Int) := by linarith
    exact_mod_cast this
  rcases changeRate with _ | s | ⟨s, k⟩
  · exact absurd rfl hn.2.1
  · rw [two] at h2
    cases s <;> simp [Binary64.isFinite] at h2 <;> exact absurd h2 (by decide!)
  · cases s
    swap
    · exfalso
      rw [Binary64.key_fin_true] at hnk
      have : (0 : Int) < ((2 ^ 52 : Nat) : Int) := by positivity
      linarith [Int.ofNat_nonneg k]
    rw [Binary64.key_fin_false] at hnk
    have h52 : 2 ^ 52 ≤ k := by exact_mod_cast hnk
    obtain ⟨hk, hr⟩ := Binary64.isFloat_fin hc
    have hr' := Nat.dvd_of_mod_eq_zero hr
    obtain ⟨c1, c2, c3⟩ := strict_core k km Binary64.unit Binary64.unit_pos hr' h52 hlo hhi
    -- 2 * changeRate
    have e2 : (2 : Binary64) * Binary64.fin false k =
        Binary64.round false (2 * k * Binary64.unit) Binary64.unit := by
      rw [two]
      show Binary64.round (xor false false) (2 * 2 ^ 1074 * k) Binary64.unit = _
      have : 2 * 2 ^ 1074 * k = 2 * k * Binary64.unit := by
        unfold Binary64.unit
        ring
      rw [this]
      rfl
    have r2k : roundNat (2 * k * Binary64.unit) Binary64.unit = 2 * k :=
      roundNat_exact (2 * k) Binary64.unit Binary64.unit_pos (representable_double k hr')
    have h2k : 2 * k < Binary64.huge := by
      rw [e2] at h2
      unfold Binary64.round at h2
      rw [r2k] at h2
      by_contra hc2
      simp [hc2, Binary64.isFinite] at h2
    rw [e2, Binary64.round_eq_fin _ _ _ (by rw [r2k]; exact h2k), r2k]
    -- changeRate * m + changeRate
    have e3 : Binary64.fin false k * Binary64.fin false km =
        Binary64.fin false (roundNat (k * km) Binary64.unit) :=
      Binary64.round_eq_fin _ _ _ (by omega)
    rw [e3]
    have e4 : Binary64.fin false (roundNat (k * km) Binary64.unit) + Binary64.fin false k =
        Binary64.fin false (roundNat (roundNat (k * km) Binary64.unit + k) 1) := by
      show Binary64.add _ _ = _
      simp only [Binary64.add, if_true]
      exact Binary64.round_eq_fin _ _ _ (by omega)
    rw [e4]
    refine ⟨⟨by simp, by simp, ?_⟩, ⟨by simp, by simp, ?_⟩⟩
    · rw [Binary64.key_fin_false, Binary64.key_fin_false]
      exact_mod_cast c2
    · rw [Binary64.key_fin_false, Binary64.key_fin_false]
      exact_mod_cast c3

theorem Binary64.abs_round (s : Bool) (n d : Nat) :
    Binary64.abs (Binary64.round s n d) = Binary64.round false n d := by
  unfold Binary64.round
  split_ifs <;> rfl

/-- The float64 product `p * x` for `x` in `[-0.03, 0.03]` is at most `|p| * 0.03`
in absolute value. -/
theorem random_change_bound (price x : Binary64) (hf : price.isFinite = true)
    (fx : x.isFinite = true) (lo : Binary64.neg 0.03 ≤ x) (hi : x ≤ 0.03) :
    Binary64.abs (price * x) ≤ Binary64.abs price * 0.03 := by
  obtain ⟨sp, kp, rfl, -⟩ := (Binary64.isFinite_iff price).1 hf
  obtain ⟨sx, kx, rfl, -⟩ := (Binary64.isFinite_iff x).1 fx
  have e3 : (0.03 : Binary64) = Binary64.fin false (roundNat (3 * 2 ^ 1074) 100) := by decide!
  have en : Binary64.neg 0.03 = Binary64.fin true (roundNat (3 * 2 ^ 1074) 100) := by decide!
  have klo := lo.2.2
  have khi := hi.2.2
  rw [en, Binary64.key_fin_true] at klo
  rw [e3, Binary64.key_fin_false] at khi
  generalize roundNat (3 * 2 ^ 1074) 100 = k3 at e3 klo khi
  have hx : kx ≤ k3 := by
    cases sx
    · rw [Binary64.key_fin_false] at khi
      exact_mod_cast khi
    · rw [Binary64.key_fin_true] at klo
      have : (kx : Int) ≤ k3 := by linarith
      exact_mod_cast this
  rw [e3]
  show Binary64.abs (Binary64.round (xor sp sx) (kp * kx) Binary64.unit) ≤
    Binary64.round (xor false false) (kp * k3) Binary64.unit
  rw [Binary64.abs_round]
  refine ⟨Binary64.round_ne_nan _ _ _, Binary64.round_ne_nan _ _ _, ?_⟩
  rw [Binary64.key_round, Binary64.key_round]
  simp only [Bool.false_eq_true, if_false, Bool.xor_false]
  have := roundNat_mono (kp * kx) Binary64.unit (kp * k3) Binary64.unit Binary64.unit_pos
    Binary64.unit_pos (Nat.mul_le_mul_right _ (Nat.mul_le_mul_left _ hx))
  exact_mod_cast min_le_min_right _ this

theorem Binary64.mul_comm (x y : Binary64) : x * y = y * x := by
  show Binary64.mul x y = Binary64.mul y x
  cases x <;> cases y <;> simp [Binary64.mul, Bool.xor_comm, Nat.mul_comm]

/-! ## The randomised multiplier -/

/-- C5, as stated, fails in float64 arithmetic.  At the smallest positive
change rate, 5e-324, the draw 0.5 gives back the change rate itself and the
draw 0.75 gives twice the change rate; at the largest finite change rate the
result and twice the change rate are both the positive infinity.  In each
case the value is not strictly between `changeRate` and `2 * changeRate`. -/
theorem multiplyChangeRate_not_strictly_between :
    ((5e-324 : Binary64).isFloat = true ∧ (0 : Binary64) < 5e-324) ∧
    ((0.5 : Binary64).isFloat = true ∧ (0 : Binary64) ≤ 0.5 ∧ (0.5 : Binary64) < 1) ∧
    ((0.75 : Binary64).isFloat = true ∧ (0 : Binary64) ≤ 0.75 ∧ (0.75 : Binary64) < 1) ∧
    (multiplyChangeRate (0.5 : Binary64) 5e-324 = 5e-324 ∧
      ¬ ((5e-324 : Binary64) < multiplyChangeRate 0.5 5e-324)) ∧
    (multiplyChangeRate (0.75 : Binary64) 5e-324 = 2 * 5e-324 ∧
      ¬ (multiplyChangeRate (0.75 : Binary64) 5e-324 < 2 * 5e-324)) ∧
    ((1.7976931348623157e308 : Binary64).isFloat = true ∧
      (0 : Binary64) < 1.7976931348623157e308 ∧
      multiplyChangeRate (0.5 : Binary64) 1.7976931348623157e308 =
        2 * 1.7976931348623157e308 ∧
      ¬ (multiplyChangeRate (0.5 : Binary64) 1.7976931348623157e308 <
        2 * 1.7976931348623157e308)) := by
  decide!

/-- C5, amended: in float64 arithmetic, for every change rate above zero and
every draw `U` in `[0, 1)`, the multiplier `U * 0.8 + 0.1` lies in
`[0.1, 0.9)`, `multiplyChangeRate` returns
`changeRate * multiplier + changeRate`, and that value lies between
`changeRate` and `2 * changeRate`, ends included; it lies strictly between
them when the change rate is at least the smallest normal number,
2.2250738585072014e-308, and `2 * changeRate` is finite. -/
theorem multiplyChangeRate_between (draw changeRate : Binary64) (hd : draw.isFloat = true)
    (hc : changeRate.isFloat = true) (h0 : 0 ≤ draw) (h1 : draw < 1) (hpos : 0 < changeRate) :
    (0.1 ≤ draw * 0.8 + 0.1 ∧ draw * 0.8 + 0.1 < 0.9) ∧
    multiplyChangeRate draw changeRate = changeRate * (draw * 0.8 + 0.1) + changeRate ∧
    (changeRate ≤ multiplyChangeRate draw changeRate ∧
      multiplyChangeRate draw changeRate ≤ 2 * changeRate) ∧
    (2.2250738585072014e-308 ≤ changeRate → (2 * changeRate).isFinite = true →
      changeRate < multiplyChangeRate draw changeRate ∧
      multiplyChangeRate draw changeRate < 2 * changeRate) := by
  obtain ⟨a, b, c, d⟩ := multiplyChangeRate_inclusive draw changeRate hd hc h0 h1 hpos
  exact ⟨a, b, ⟨c, d⟩, multiplyChangeRate_strict draw changeRate hd hc h0 h1⟩

/-- Witness of the amended C5 at draw 0.5 and change rate 0.1. -/
theorem multiplyChangeRate_between_witness :
    ((0.1 : Binary64) ≤ 0.5 * 0.8 + 0.1 ∧ (0.5 : Binary64) * 0.8 + 0.1 < 0.9) ∧
    multiplyChangeRate (0.5 : Binary64) 0.1 = 0.1 * (0.5 * 0.8 + 0.1) + 0.1 ∧
    ((0.1 : Binary64) ≤ multiplyChangeRate 0.5 0.1 ∧
      multiplyChangeRate (0.5 : Binary64) 0.1 ≤ 2 * 0.1) ∧
    ((0.1 : Binary64) < multiplyChangeRate 0.5 0.1 ∧
      multiplyChangeRate (0.5 : Binary64) 0.1 < 2 * 0.1) :=
  have h := multiplyChangeRate_between 0.5 0.1 (by decide!) (by decide!) (by decide!)
    (by decide!) (by decide!)
  ⟨h.1, h.2.1, h.2.2.1, h.2.2.2 (by decide!) (by decide!)⟩

/-! ## The projected price of the candle 100, 110 -/

theorem getLastKlines_sampleWorld :
    (getLastKlines sampleWorld "BTCUSDT" "15m").result = Run.done (some sampleKline, none) := by
  simp [getLastKlines, Exec.andThen, Exec.send, sampleWorld, ReadAll, sliceIndex, assertFloat64,
    assertString, Exec.ret, sampleKline, toInt64]

/-- C6, as stated, fails: for the candle with open "100" and close "110" and
the multiplier 0.8 (draw 7/8), `handleCryptoRequest` projects the price 129.8,
which is outside `(121, 129]`; in float64 arithmetic too the price projected
from the draw 0.875 is above 129. -/
theorem projected_price_not_in_121_129 :
    (getLastKlines sampleWorld "BTCUSDT" "15m").result = Run.done (some sampleKline, none) ∧
    sampleKline.Open = "100" ∧ sampleKline.Close = "110" ∧
    calculatePriceChangeRate sampleWorld sampleKline = (0.1, none) ∧
    ((0.1 : float64) ≤ sampleWorld.multiplierDraw * 0.8 + 0.1 ∧
      sampleWorld.multiplierDraw * 0.8 + 0.1 < (0.9 : float64)) ∧
    (handleCryptoRequest sampleWorld sampleConfig "BTC").result =
      Run.done (Response.json 200 (649 / 15) 129.8 0 0) ∧
    ¬ ((121 : float64) < 129.8 ∧ (129.8 : float64) ≤ 129) ∧
    (((0.1 : Binary64) ≤ 0.875 * 0.8 + 0.1 ∧ (0.875 : Binary64) * 0.8 + 0.1 < 0.9) ∧
      ¬ ((110 : Binary64) + 110 * multiplyChangeRate 0.875 (((110 : Binary64) - 100) / 100) ≤
        129)) := by
  refine ⟨getLastKlines_sampleWorld, rfl, rfl, ?_, ⟨?_, ?_⟩, ?_, ?_, ?_⟩
  · simp [calculatePriceChangeRate, sampleWorld, sampleParseFloat, sampleKline]
    norm_num
  · simp only [sampleWorld]
    norm_num
  · simp only [sampleWorld]
    norm_num
  · simp [handleCryptoRequest, getLastKlines, Exec.andThen, Exec.send, sampleWorld, ReadAll,
      sliceIndex, assertFloat64, assertString, Exec.ret, calculatePriceChangeRate,
      sampleParseFloat, getCoinGeckoPrice, getCryptoComparePrice, multiplyChangeRate]
    norm_num
  · norm_num
  · decide!

/-- C6, amended: for the candle with open "100" and close "110",
`calculatePriceChangeRate` returns 0.10, and for every multiplier `m` in
`[0.1, 0.9)` the price projected by `handleCryptoRequest`,
`110 + 110 * (0.1 * m + 0.1)`, lies in `(121, 130.9]`.  The handler is run in
exact arithmetic; the same change rate and the same interval hold when the
projection is evaluated in float64 arithmetic, where the end 130.9 is reached
(at the largest draw below 1). -/
theorem handleCryptoRequest_projected_price (w : World) (cfg : envConfig) (token : String)
    (k : Kline)
    (hk : (getLastKlines w (token ++ "USDT") "15m").result = Run.done (some k, none))
    (hopen : k.Open = "100") (hclose : k.Close = "110")
    (h100 : w.ParseFloat "100" = (100, none)) (h110 : w.ParseFloat "110" = (110, none))
    (hm0 : 0.1 ≤ w.multiplierDraw * 0.8 + 0.1) (hm1 : w.multiplierDraw * 0.8 + 0.1 < 0.9) :
    calculatePriceChangeRate w k = (0.1, none) ∧
    (∃ price binance coingecko cryptocompare,
      (handleCryptoRequest w cfg token).result =
        Run.done (Response.json 200 price binance coingecko cryptocompare) ∧
      binance = 110 + 110 * (0.1 * (w.multiplierDraw * 0.8 + 0.1) + 0.1) ∧
      121 < binance ∧ binance ≤ 130.9) ∧
    (∀ draw : Binary64, 0.1 ≤ draw * 0.8 + 0.1 → draw * 0.8 + 0.1 < 0.9 →
      ((110 : Binary64) - 100) / 100 = 0.1 ∧
      121 < 110 + 110 * multiplyChangeRate draw 0.1 ∧
      110 + 110 * multiplyChangeRate draw 0.1 ≤ 130.9) ∧
    ((0 : Binary64) ≤ Binary64.predOne ∧ Binary64.predOne < 1 ∧
      Binary64.predOne * 0.8 + 0.1 < 0.9 ∧
      (110 : Binary64) + 110 * multiplyChangeRate Binary64.predOne 0.1 = 130.9) := by
  have hrate : calculatePriceChangeRate w k = (0.1, none) := by
    simp only [calculatePriceChangeRate, hopen, hclose, h100, h110]
    norm_num
  obtain ⟨v1, e1, h1, -⟩ := getCoinGeckoPrice_done w token cfg.CoinGeckoAPIKey
  obtain ⟨v2, e2, h2, -⟩ := getCryptoComparePrice_done w token cfg.CryptoCompareAPIKey
  refine ⟨hrate, ⟨(110 + 110 * (0.1 * (w.multiplierDraw * 0.8 + 0.1) + 0.1) + v1 + v2) / 3,
    110 + 110 * (0.1 * (w.multiplierDraw * 0.8 + 0.1) + 0.1), v1, v2, ?_, rfl, ?_, ?_⟩,
    projected_price_binary64, by decide!⟩
  · unfold handleCryptoRequest
    rw [Exec.andThen_result_done _ _ _ hk]
    simp only [hrate]
    rw [Exec.andThen_result_done _ _ _ h1, Exec.andThen_result_done _ _ _ h2]
    simp only [Exec.ret, hclose, h110, multiplyChangeRate]
  · linarith
  · linarith

/-- Witness of the amended C6: the sample world, where the multiplier is 0.8,
and the float64 draw 0.875. -/
theorem handleCryptoRequest_projected_price_witness :
    calculatePriceChangeRate sampleWorld sampleKline = (0.1, none) ∧
    (∃ price binance coingecko cryptocompare,
      (handleCryptoRequest sampleWorld sampleConfig "BTC").result =
        Run.done (Response.json 200 price binance coingecko cryptocompare) ∧
      binance = 110 + 110 * (0.1 * (sampleWorld.multiplierDraw * 0.8 + 0.1) + 0.1) ∧
      121 < binance ∧ binance ≤ 130.9) ∧
    (((110 : Binary64) - 100) / 100 = 0.1 ∧
      121 < 110 + 110 * multiplyChangeRate (0.875 : Binary64) 0.1 ∧
      110 + 110 * multiplyChangeRate (0.875 : Binary64) 0.1 ≤ 130.9) :=
  have h := handleCryptoRequest_projected_price sampleWorld sampleConfig "BTC" sampleKline
    getLastKlines_sampleWorld rfl rfl (by decide) (by decide)
    (by simp only [sampleWorld]; norm_num) (by simp only [sampleWorld]; norm_num)
  ⟨h.1, h.2.1, h.2.2.1 0.875 (by decide!) (by decide!)⟩

/-! ## Validation in the meme handler -/

theorem getLatestBlock_run (w : World) (rpc : String) :
    ∃ r, (getLatestBlock w rpc).result = Run.done r ∧
      (w.NewRequest (Upstream.nodeStatus rpc) = none →
        (getLatestBlock w rpc).calls = [Upstream.nodeStatus rpc]) := by
  unfold getLatestBlock
  dsimp only
  rcases hn : w.NewRequest (Upstream.nodeStatus rpc) with _ | err
  · rcases hg : w.Get (Upstream.nodeStatus rpc) with err | resp
    · exact ⟨("", some (wrapError "failed to execute request: " err)),
        by simp [Exec.andThen, Exec.send, hg, Exec.ret],
        fun _ => by simp [Exec.andThen, Exec.send, hg, Exec.ret]⟩
    · rcases hb : ReadAll resp.Body with ⟨body, _ | err⟩
      · rcases hu : w.UnmarshalLatestBlock body with err | lb
        · exact ⟨("", some (wrapError "failed to unmarshal response: " err)),
            by simp [Exec.andThen, Exec.send, hg, hb, hu, Exec.ret],
            fun _ => by simp [Exec.andThen, Exec.send, hg, hb, hu, Exec.ret]⟩
        · exact ⟨(lb, none), by simp [Exec.andThen, Exec.send, hg, hb, hu, Exec.ret],
            fun _ => by simp [Exec.andThen, Exec.send, hg, hb, hu, Exec.ret]⟩
      · exact ⟨("", some (wrapError "failed to read response body: " err)),
          by simp [Exec.andThen, Exec.send, hg, hb, Exec.ret],
          fun _ => by simp [Exec.andThen, Exec.send, hg, hb, Exec.ret]⟩
  · exact ⟨("", some (wrapError "failed to create new request: " err)), rfl,
      fun h => by simp at h⟩

/-- C7: `handleMemeRequest` validates its configuration before any outbound
request: with an empty API key it writes 400 "need api key" and issues no
request; with an API key and an empty RPC base URL it writes 500
"Invalid RPC configuration" and issues no request; a request is issued only
when both are present, and then the handler starts with `getLatestBlock` on
the RPC base URL: its requests come first (the first one is the status
request of that URL), and its failure ends the handler with
500 "Error fetching latest block". -/
theorem handleMemeRequest_validation (w : World) (cfg : envConfig) :
    (cfg.APIKey = "" →
      handleMemeRequest w cfg = ⟨[], Run.done (Response.string 400 "need api key")⟩) ∧
    (cfg.APIKey ≠ "" → cfg.RPC = "" →
      handleMemeRequest w cfg =
        ⟨[], Run.done (Response.string 500 "Invalid RPC configuration")⟩) ∧
    ((handleMemeRequest w cfg).calls ≠ [] → cfg.APIKey ≠ "" ∧ cfg.RPC ≠ "") ∧
    (cfg.APIKey ≠ "" → cfg.RPC ≠ "" →
      (getLatestBlock w cfg.RPC).calls <+: (handleMemeRequest w cfg).calls ∧
      (w.NewRequest (Upstream.nodeStatus cfg.RPC) = none →
        (handleMemeRequest w cfg).calls.head? = some (Upstream.nodeStatus cfg.RPC)) ∧
      ((getLatestBlock w cfg.RPC).failed = true →
        handleMemeRequest w cfg =
          ⟨(getLatestBlock w cfg.RPC).calls,
            Run.done (Response.string 500 "Error fetching latest block")⟩)) := by
  have hkey : cfg.APIKey = "" →
      handleMemeRequest w cfg = ⟨[], Run.done (Response.string 400 "need api key")⟩ := by
    intro h
    simp [handleMemeRequest, h, Exec.ret]
  have hrpc : cfg.APIKey ≠ "" → cfg.RPC = "" →
      handleMemeRequest w cfg =
        ⟨[], Run.done (Response.string 500 "Invalid RPC configuration")⟩ := by
    intro h1 h2
    simp [handleMemeRequest, h1, h2, Exec.ret]
  refine ⟨hkey, hrpc, ?_, ?_⟩
  · intro hc
    by_cases h1 : cfg.APIKey = ""
    · rw [hkey h1] at hc
      exact absurd rfl hc
    · by_cases h2 : cfg.RPC = ""
      · rw [hrpc h1 h2] at hc
        exact absurd rfl hc
      · exact ⟨h1, h2⟩
  · intro h1 h2
    obtain ⟨r, hr, hcalls⟩ := getLatestBlock_run w cfg.RPC
    have hcalls2 : ∃ rest, (handleMemeRequest w cfg).calls =
        (getLatestBlock w cfg.RPC).calls ++ rest := by
      unfold handleMemeRequest
      simp only [h1, h2, if_false]
      rw [Exec.andThen_calls_done _ _ _ hr]
      exact ⟨_, rfl⟩
    obtain ⟨rest, hrest⟩ := hcalls2
    refine ⟨⟨rest, hrest.symm⟩, ?_, ?_⟩
    · intro hn
      rw [hrest, hcalls hn]
      rfl
    · intro hf
      rcases r with ⟨lb, _ | err⟩
      · simp [Exec.failed, hr] at hf
      · unfold handleMemeRequest
        simp only [h1, h2, if_false]
        unfold Exec.andThen
        rw [hr]
        simp [Exec.ret]

/-- Witness of C7: without API key the answer is 400, without RPC base URL it
is 500, and with both the first request is the status request of the RPC. -/
theorem handleMemeRequest_validation_witness :
    handleMemeRequest sampleWorld noKeyConfig =
      ⟨[], Run.done (Response.string 400 "need api key")⟩ ∧
    handleMemeRequest sampleWorld noRPCConfig =
      ⟨[], Run.done (Response.string 500 "Invalid RPC configuration")⟩ ∧
    (handleMemeRequest sampleWorld sampleConfig).calls.head? =
      some (Upstream.nodeStatus "http://localhost:26657") :=
  ⟨(handleMemeRequest_validation sampleWorld noKeyConfig).1 rfl,
    (handleMemeRequest_validation sampleWorld noRPCConfig).2.1 (by decide) rfl,
    ((handleMemeRequest_validation sampleWorld sampleConfig).2.2.2 (by decide)
      (by decide)).2.1 rfl⟩

/-! ## The jitter of the meme price -/

theorem indexFloat64_result (row : List JVal) (i : Nat) :
    (∃ f, row.get? i = some (JVal.num f) ∧
      ((sliceIndex row i).andThen assertFloat64).result = Run.done f) ∨
    (isNumberAt row i = false ∧
      ∃ p, ((sliceIndex row i).andThen assertFloat64).result = Run.panicked p) := by
  unfold sliceIndex isNumberAt
  rcases h : row.get? i with _ | v
  · exact Or.inr ⟨rfl, _, rfl⟩
  · cases v
    case num f => exact Or.inl ⟨f, rfl, rfl⟩
    all_goals exact Or.inr ⟨rfl, _, rfl⟩

theorem indexString_result (row : List JVal) (i : Nat) :
    (∃ s, row.get? i = some (JVal.str s) ∧
      ((sliceIndex row i).andThen assertString).result = Run.done s) ∨
    (isStringAt row i = false ∧
      ∃ p, ((sliceIndex row i).andThen assertString).result = Run.panicked p) := by
  unfold sliceIndex isStringAt
  rcases h : row.get? i with _ | v
  · exact Or.inr ⟨rfl, _, rfl⟩
  · cases v
    case str s => exact Or.inl ⟨s, rfl, rfl⟩
    all_goals exact Or.inr ⟨rfl, _, rfl⟩

theorem getLastKlines_first_row (w : World) (symbol interval : String) (resp : HttpResponse)
    (b : String) (kline : List JVal) (rest : List (List JVal))
    (hg : w.Get (Upstream.klines w.nowUnixMilli "1" symbol interval) = Except.ok resp)
    (hs : resp.StatusCode = 200) (hb : ReadAll resp.Body = (b, none))
    (hu : w.UnmarshalRows b = Except.ok (kline :: rest)) :
    (shapeMismatch kline = true ∧
      ∃ p, (getLastKlines w symbol interval).result = Run.panicked p) ∨
    (∃ t o h l c v tail,
      kline = JVal.num t :: JVal.str o :: JVal.str h :: JVal.str l :: JVal.str c ::
        JVal.str v :: tail ∧
      (getLastKlines w symbol interval).result = Run.done (some {
        OpenTime := GoTime.unixMilli (toInt64 t)
        CloseTime := GoTime.zero
        Interval := interval
        Symbol := symbol
        Open := o
        High := c
        Low := h
        Close := l
        Volume := v
        Closed := false }, none)) := by
  unfold getLastKlines
  rw [Exec.andThen_result_done _ _ _ (Exec.send_result _ _)]
  simp only [hg, hs, hb, hu, ne_eq, not_true_eq_false, if_false]
  rcases indexFloat64_result kline 0 with ⟨t, g0, r0⟩ | ⟨m0, p, r0⟩
  swap
  · exact Or.inl ⟨by simp [shapeMismatch, m0], p, Exec.andThen_result_panicked _ _ _ r0⟩
  rw [Exec.andThen_result_done _ _ _ r0]
  rcases indexString_result kline 1 with ⟨o, g1, r1⟩ | ⟨m1, p, r1⟩
  swap
  · exact Or.inl ⟨by simp [shapeMismatch, m1], p, Exec.andThen_result_panicked _ _ _ r1⟩
  rw [Exec.andThen_result_done _ _ _ r1]
  rcases indexString_result kline 4 with ⟨c, g4, r4⟩ | ⟨m4, p, r4⟩
  swap
  · exact Or.inl ⟨by simp [shapeMismatch, m4], p, Exec.andThen_result_panicked _ _ _ r4⟩
  rw [Exec.andThen_result_done _ _ _ r4]
  rcases indexString_result kline 2 with ⟨h, g2, r2⟩ | ⟨m2, p, r2⟩
  swap
  · exact Or.inl ⟨by simp [shapeMismatch, m2], p, Exec.andThen_result_panicked _ _ _ r2⟩
  rw [Exec.andThen_result_done _ _ _ r2]
  rcases indexString_result kline 3 with ⟨l, g3, r3⟩ | ⟨m3, p, r3⟩
  swap
  · exact Or.inl ⟨by simp [shapeMismatch, m3], p, Exec.andThen_result_panicked _ _ _ r3⟩
  rw [Exec.andThen_result_done _ _ _ r3]
  rcases indexString_result kline 5 with ⟨v, g5, r5⟩ | ⟨m5, p, r5⟩
  swap
  · exact Or.inl ⟨by simp [shapeMismatch, m5], p, Exec.andThen_result_panicked _ _ _ r5⟩
  rw [Exec.andThen_result_done _ _ _ r5]
  right
  rcases kline with _ | ⟨x0, _ | ⟨x1, _ | ⟨x2, _ | ⟨x3, _ | ⟨x4, _ | ⟨x5, tail⟩⟩⟩⟩⟩⟩
  all_goals simp at g0 g1 g2 g3 g4 g5
  subst g0 g1 g2 g3 g4 g5
  exact ⟨t, o, h, l, c, v, tail, rfl, rfl⟩

/-- C8 fails on the code: when the exchange answers 200 with a non-empty list
of rows whose first row has a shape mismatch, `getLastKlines` does not return
an error value, it panics (index out of range or failed type assertion). -/
theorem getLastKlines_shape_mismatch_panics (w : World) (symbol interval : String)
    (resp : HttpResponse) (b : String) (kline : List JVal) (rest : List (List JVal))
    (hg : w.Get (Upstream.klines w.nowUnixMilli "1" symbol interval) = Except.ok resp)
    (hs : resp.StatusCode = 200) (hb : ReadAll resp.Body = (b, none))
    (hu : w.UnmarshalRows b = Except.ok (kline :: rest))
    (hm : shapeMismatch kline = true) :
    ∃ p, (getLastKlines w symbol interval).result = Run.panicked p := by
  rcases getLastKlines_first_row w symbol interval resp b kline rest hg hs hb hu with
    ⟨-, hp⟩ | ⟨t, o, h, l, c, v, tail, hrow, -⟩
  · exact hp
  · rw [hrow] at hm
    simp [shapeMismatch, isNumberAt, isStringAt] at hm
    omega

/-- The failing input of C8: the body decodes to the single row
`[1699999200000, "100"]`; `getLastKlines` panics on `kline[4]`. -/
theorem getLastKlines_shape_mismatch_panics_witness :
    (∃ p, (getLastKlines shortRowWorld "BTCUSDT" "15m").result = Run.panicked p) ∧
    (getLastKlines shortRowWorld "BTCUSDT" "15m").result =
      Run.panicked (GoPanic.indexOutOfRange 4 2) ∧
    (handleCryptoRequest shortRowWorld sampleConfig "BTC").result =
      Run.panicked (GoPanic.indexOutOfRange 4 2) :=
  ⟨getLastKlines_shape_mismatch_panics shortRowWorld "BTCUSDT" "15m" ⟨200, ⟨"rows", none⟩⟩
      "rows" shortRow [] rfl rfl rfl rfl (by decide),
    by decide, by decide⟩

/-- C9 fails on the code: for a first row in the order of the exchange,
`[openTime, open, high, low, close, volume, ...]`, `getLastKlines` returns a
candle whose `Open`, `Volume`, `Symbol` and `Interval` are as claimed, but whose
`High` is the close of the row, whose `Low` is its high and whose `Close` is its low. -/
theorem getLastKlines_field_order (w : World) (symbol interval : String)
    (resp : HttpResponse) (b : String) (openTime : float64)
    (open_ high low close volume : String) (tail : List JVal) (rest : List (List JVal))
    (hg : w.Get (Upstream.klines w.nowUnixMilli "1" symbol interval) = Except.ok resp)
    (hs : resp.StatusCode = 200) (hb : ReadAll resp.Body = (b, none))
    (hu : w.UnmarshalRows b = Except.ok
      ((JVal.num openTime :: JVal.str open_ :: JVal.str high :: JVal.str low ::
        JVal.str close :: JVal.str volume :: tail) :: rest)) :
    ∃ k, (getLastKlines w symbol interval).result = Run.done (some k, none) ∧
      k.Symbol = symbol ∧ k.Interval = interval ∧ k.Open = open_ ∧ k.Volume = volume ∧
      k.High = close ∧ k.Low = high ∧ k.Close = low := by
  rcases getLastKlines_first_row w symbol interval resp b _ rest hg hs hb hu with
    ⟨hm, -⟩ | ⟨t, o, h, l, c, v, tail2, hrow, hres⟩
  · simp [shapeMismatch, isNumberAt, isStringAt] at hm
    omega
  · simp only [List.cons.injEq, JVal.num.injEq, JVal.str.injEq] at hrow
    obtain ⟨-, rfl, rfl, rfl, rfl, rfl, -⟩ := hrow
    exact ⟨_, hres, rfl, rfl, rfl, rfl, rfl, rfl, rfl⟩

/-- The failing input of C9: the row with open 100, high 112, low 98,
close 110; the candle returned has `High` "110", `Low` "112" and `Close` "98",
and the change rate computed from it is -0.02, not 0.10. -/
theorem getLastKlines_field_order_witness :
    (∃ k, (getLastKlines exchangeWorld "BTCUSDT" "15m").result = Run.done (some k, none) ∧
      k.Symbol = "BTCUSDT" ∧ k.Interval = "15m" ∧ k.Open = "100" ∧ k.Volume = "5" ∧
      k.High = "110" ∧ k.Low = "112" ∧ k.Close = "98") ∧
    (∀ k, (getLastKlines exchangeWorld "BTCUSDT" "15m").result = Run.done (some k, none) →
      calculatePriceChangeRate exchangeWorld k = (-0.02, none)) :=
  ⟨getLastKlines_field_order exchangeWorld "BTCUSDT" "15m" ⟨200, ⟨"rows", none⟩⟩ "rows"
      1699999200000 "100" "112" "98" "110" "5" [JVal.num 1700000099999] [] rfl rfl rfl rfl,
    by
      intro k hk
      have h : (getLastKlines exchangeWorld "BTCUSDT" "15m").result =
          Run.done (some ⟨GoTime.unixMilli (toInt64 1699999200000), GoTime.zero, "15m",
            "BTCUSDT", "100", "110", "112", "98", "5", false⟩, none) := by
        simp [getLastKlines, Exec.andThen, Exec.send, exchangeWorld, exchangeRow,
          World.withRows, sampleWorld, ReadAll, sliceIndex, assertFloat64, assertString,
          Exec.ret]
      rw [h] at hk
      simp only [Run.done.injEq, Prod.mk.injEq, Option.some.injEq, and_true] at hk
      subst hk
      simp [calculatePriceChangeRate, exchangeWorld, World.withRows, sampleWorld,
        sampleParseFloat]
      norm_num⟩

end AlloraWorker
